import Mathlib

/-!
Verification of the serializationlib core (`src/SerializationUtility.h`,
`src/ValidationUtility.h`) against its specification.

The development shallowly embeds the code paths the specification speaks
about:

* the primitive codec `convert_primitive_to_string` /
  `convert_string_to_primitive`, with the C standard-library parsing
  functions (`std::stoll`, `std::stoull`, `std::stoi`) modelled from their
  documented semantics (skip leading spaces, optional sign, decimal digits,
  range check) and machine-integer casts modelled as reduction modulo `2^w`;
* the ArduinoJson document boundary: a `JsonValue` tree, a strict-JSON
  recursive-descent parser model of `deserializeJson` (fuel-indexed so that
  every definition is structurally recursive and kernel-evaluable), and a
  printer model of `serializeJson` for the single-level documents the
  primitive-element container paths construct;
* the container codec `serialize_sequential_container` /
  `deserialize_sequential_container` / `deserialize_associative_container` /
  `serialize_associative_container`, instantiated at the primitive element
  types, with `std::set` modelled as a strictly sorted list (its iteration
  order), `std::unordered_set` as a duplicate-free list, and `std::map` as
  an association list strictly sorted by key;
* the optional codec branch of `SerializationUtility::Deserialize`;
* the three validators of `ValidationUtility`.

Machine strings are modelled as Lean `String` (the sources' `StdString` is
`std::string`; for the byte values that appear in the claims the two agree).
C++ exceptions are modelled as `Except String` carrying the exact
`what()` message the source builds.
-/

namespace SerLib

/-! ## Character and digit utilities -/

/-- The four whitespace characters JSON (and ArduinoJson's reader) skips:
space, tab, line feed, carriage return. Also the trim set used by
`ValidationUtility::ValidateNotBlank` (`" \t\n\r"`). -/
def isWs (c : Char) : Bool := c = ' ' || c = '\t' || c = '\n' || c = '\x0d'

/-- Whitespace in the C locale's `isspace`, the set `std::stoll`/`std::stoull`
skip: space, `\t`, `\n`, `\v`, `\f`, `\r`. -/
def isSpaceC (c : Char) : Bool :=
  c = ' ' || c = '\t' || c = '\n' || c = '\x0b' || c = '\x0c' || c = '\x0d'

/-- Decimal digit test. -/
def isDigit (c : Char) : Bool := '0' ≤ c && c ≤ '9'

/-- The character for a decimal digit value (`0 ↦ '0'`, …, `9 ↦ '9'`). -/
def digitToChar (d : Nat) : Char := Char.ofNat (48 + d)

/-- The decimal value of a digit character. -/
def charToDigit (c : Char) : Nat := c.toNat - 48

/-- The opening brace character. -/
def lbraceCh : Char := Char.ofNat 123

/-- The closing brace character. -/
def rbraceCh : Char := Char.ofNat 125

/-- Little-endian decimal digits of `n`; the fuel argument makes the
recursion structural (any fuel `≥ n` yields all digits). -/
def digitsAux : Nat → Nat → List Nat
  | 0, _ => []
  | fuel + 1, n => if n = 0 then [] else n % 10 :: digitsAux fuel (n / 10)

/-- Decimal digit characters of `n`, most significant first (empty for 0). -/
def natDigits (n : Nat) : List Char := ((digitsAux n n).map digitToChar).reverse

/-- Decimal rendering of a natural number, as produced by `operator<<` and
`std::to_string`. -/
def natToString (n : Nat) : String := if n = 0 then "0" else String.mk (natDigits n)

/-- Decimal rendering of an integer (minus sign, then digits), as produced by
streaming the value into a `std::ostringstream` for the integral types. -/
def intToString (i : Int) : String :=
  if i < 0 then "-" ++ natToString i.natAbs else natToString i.natAbs

/-- Value of a most-significant-first digit-character run. -/
def digitsVal (cs : List Char) : Nat := cs.foldl (fun a c => 10 * a + charToDigit c) 0

/-- Two's-complement wrap of an integer to width `w`: the value a
`static_cast` to a signed `w`-bit type produces. -/
def toSigned (w : Nat) (i : Int) : Int := (i + 2 ^ (w - 1)) % 2 ^ w - 2 ^ (w - 1)

/-! ## Models of the C standard-library string-to-number functions -/

/-- Optional leading sign: returns (isNegative, rest). -/
def parseSign (cs : List Char) : Bool × List Char :=
  match cs with
  | [] => (false, [])
  | c :: t => if c = '-' then (true, t) else if c = '+' then (false, t) else (false, c :: t)

/-- Model of `std::stoll(input)` (base 10): skip C whitespace, optional sign,
a nonempty digit run valued in `[-2^63, 2^63)`; trailing characters are
ignored. `none` models the `std::invalid_argument` / `std::out_of_range`
exceptions (the caller in `convert_string_to_primitive` catches both and
rethrows a single message, so the model does not distinguish them). -/
def stollModel (s : String) : Option Int :=
  let cs := s.data.dropWhile isSpaceC
  let sn := parseSign cs
  let ds := sn.2.takeWhile isDigit
  if ds = [] then none
  else
    let v : Int := if sn.1 then -(digitsVal ds : Int) else (digitsVal ds : Int)
    if v < -(2 ^ 63) ∨ 2 ^ 63 ≤ v then none else some v

/-- Model of `std::stoull(input)` (base 10). Per the C standard a leading
minus sign is accepted and the converted value is negated in the return
type, i.e. reduced modulo `2^64`; only a digit magnitude `≥ 2^64` is out of
range. -/
def stoullModel (s : String) : Option Nat :=
  let cs := s.data.dropWhile isSpaceC
  let sn := parseSign cs
  let ds := sn.2.takeWhile isDigit
  if ds = [] then none
  else
    let m := digitsVal ds
    if 2 ^ 64 ≤ m then none
    else some (if sn.1 then (2 ^ 64 - m) % 2 ^ 64 else m)

/-- Model of `std::stoi(input)` (base 10): like `stollModel` with the range
of `int` (`[-2^31, 2^31)`). -/
def stoiModel (s : String) : Option Int :=
  let cs := s.data.dropWhile isSpaceC
  let sn := parseSign cs
  let ds := sn.2.takeWhile isDigit
  if ds = [] then none
  else
    let v : Int := if sn.1 then -(digitsVal ds : Int) else (digitsVal ds : Int)
    if v < -(2 ^ 31) ∨ 2 ^ 31 ≤ v then none else some v

/-! ## The primitive codec (`SerializationUtility.h`, lines 308–389) -/

/-- `convert_string_to_primitive<T>` for the string types (`StdString`,
`CStdString`), lines 343–345: the input is returned unchanged, and no
exception can be raised. `Deserialize<StdString>` reaches exactly this
branch (strings are primitives, not optionals or containers). -/
def convert_string_to_primitive_string (input : String) : Except String String :=
  .ok input

/-- `convert_string_to_primitive<T>` for a signed integral type of width `w`
(lines 346–356): `static_cast<T>(std::stoll(input))`, any exception mapped to
`std::invalid_argument("Invalid integer value: " + input)`. -/
def convert_string_to_primitive_signed (w : Nat) (input : String) : Except String Int :=
  match stollModel input with
  | some v => .ok (toSigned w v)
  | none => .error ("Invalid integer value: " ++ input)

/-- `convert_string_to_primitive<T>` for an unsigned integral type of width
`w` (lines 346–356): `static_cast<T>(std::stoull(input))`, the cast modelled
as reduction modulo `2^w`. -/
def convert_string_to_primitive_unsigned (w : Nat) (input : String) : Except String Nat :=
  match stoullModel input with
  | some v => .ok (v % 2 ^ w)
  | none => .error ("Invalid integer value: " ++ input)

/-- `convert_string_to_primitive<char>`. `char` is a signed integral type on
the reference platform and `std::is_integral_v<char>` holds, so the template
dispatch (bool → string → `is_integral` → …) sends `char` into the integral
branch, lines 346–356, with the result truncated to 8 bits. The dedicated
character branch (lines 364–379) is therefore unreachable for every
character type. -/
def convert_string_to_primitive_char (input : String) : Except String Int :=
  match stollModel input with
  | some v => .ok (toSigned 8 v)
  | none => .error ("Invalid integer value: " ++ input)

/-- The character branch of `convert_string_to_primitive` as written at
lines 364–379 (one character: its code; empty: zero; otherwise
`static_cast<T>(std::stoi(input))`, failure mapped to
`std::invalid_argument("Invalid character value: " + input)`). Dead code
under the actual dispatch — kept to exhibit the divergence. -/
def char_branch_model (input : String) : Except String Int :=
  if input.length = 1 then .ok (toSigned 8 (input.data.headD ' ').toNat)
  else if input.length = 0 then .ok 0
  else
    match stoiModel input with
    | some v => .ok (toSigned 8 v)
    | none => .error ("Invalid character value: " ++ input)

/-- `convert_primitive_to_string<char>`: `std::ostringstream << value` for a
`char` writes the character itself (one byte), lines 316–320. -/
def convert_primitive_to_string_char (c : Char) : String := String.singleton c

/-- `convert_primitive_to_string` for a signed integral type: decimal text
(lines 316–320). -/
def convert_primitive_to_string_signed (i : Int) : String := intToString i

/-! ## The ArduinoJson document model

`JsonValue` is the parsed document tree. `jfrac` stands for a JSON number
with a fraction or exponent part: ArduinoJson stores such values as a float,
which none of the verified operations inspects, so the payload is
abstracted away. -/

/-- A parsed JSON document node. -/
inductive JsonValue where
  | jnull
  | jbool (b : Bool)
  | jint (i : Int)
  | jfrac
  | jstr (s : String)
  | jarr (elts : List JsonValue)
  | jobj (mems : List (String × JsonValue))

/-- `JsonDocument::isNull()` on a node. -/
def isNullJ : JsonValue → Bool
  | .jnull => true
  | _ => false

/-- `doc.is<JsonArray>()`. -/
def isJArr : JsonValue → Bool
  | .jarr _ => true
  | _ => false

/-- `doc.is<JsonObject>()`. -/
def isJObj : JsonValue → Bool
  | .jobj _ => true
  | _ => false

/-- `doc.is<const char*>()` / `doc.is<StdString>()`: true exactly for
string nodes. -/
def isJStr : JsonValue → Bool
  | .jstr _ => true
  | _ => false

/-- `variant.as<const char*>()`: the stored string, or a null pointer
(`none`) for every non-string node, null included. -/
def asCStr : JsonValue → Option String
  | .jstr s => some s
  | _ => none

/-- `variant.as<int64_t>()`: the stored integer when it fits; ArduinoJson
converts booleans to 0/1 and returns 0 for the remaining categories. Only
the `jint` case is exercised by the theorems below. -/
def asInt64 : JsonValue → Int
  | .jint i => if -(2 ^ 63) ≤ i ∧ i < 2 ^ 63 then i else 0
  | .jbool b => if b then 1 else 0
  | _ => 0

/-- `variant.as<uint64_t>()`: the stored integer when it is in
`[0, 2^64)`, else 0 (out-of-range conversions yield 0 in ArduinoJson).
Only the `jint` case is exercised by the theorems below. -/
def asUInt64 : JsonValue → Nat
  | .jint i => if 0 ≤ i ∧ i < 2 ^ 64 then i.toNat else 0
  | .jbool b => if b then 1 else 0
  | _ => 0

/-- `variant.as<bool>()`: the stored boolean; numbers convert to `≠ 0`;
other categories to false. -/
def asBool : JsonValue → Bool
  | .jbool b => b
  | .jint i => decide (i ≠ 0)
  | _ => false

/-- `doc[field]` on the root: the member of an object root with that key
(first match), otherwise — key missing or non-object root — ArduinoJson's
null variant. -/
def jsonAt (doc : JsonValue) (field : String) : JsonValue :=
  match doc with
  | .jobj mems => ((mems.find? (fun kv => kv.1 = field)).map (·.2)).getD .jnull
  | _ => .jnull

/-- The elements of an array node (empty for other categories; used with
`JsonArray::size` on nodes already known to be arrays). -/
def jarrElems : JsonValue → List JsonValue
  | .jarr xs => xs
  | _ => []

/-- The members of an object node (empty for other categories). -/
def jobjMems : JsonValue → List (String × JsonValue)
  | .jobj ms => ms
  | _ => []

/-! ## The printer model (`serializeJson`)

ArduinoJson's text writer prints compact JSON (no spaces), escapes
`"`, `\`, backspace, form feed, newline, carriage return and tab inside
strings, and writes every other character verbatim. The container code
under verification only ever serializes one-level documents (arrays and
objects of scalar nodes, built from primitive element types), so the
printer is modelled on exactly those shapes. -/

/-- The escape ArduinoJson's writer produces for one string character. -/
def escChar (c : Char) : List Char :=
  if c = '"' then ['\\', '"']
  else if c = '\\' then ['\\', '\\']
  else if c = '\x08' then ['\\', 'b']
  else if c = '\x0c' then ['\\', 'f']
  else if c = '\n' then ['\\', 'n']
  else if c = '\x0d' then ['\\', 'r']
  else if c = '\t' then ['\\', 't']
  else [c]

/-- A string body, escaped. -/
def escList : List Char → List Char
  | [] => []
  | c :: cs => escChar c ++ escList cs

/-- A JSON string literal: quote, escaped body, quote. -/
def printString (s : String) : String := String.mk ('"' :: (escList s.data ++ ['"']))

/-- A scalar node's text. The container/object cases do not occur in the
one-level documents this printer models and are mapped to the empty
string. -/
def printScalar : JsonValue → String
  | .jnull => "null"
  | .jbool true => "true"
  | .jbool false => "false"
  | .jint i => intToString i
  | .jstr s => printString s
  | _ => ""

/-- The character run between `[` and `]`: element texts joined by commas. -/
def itemsChars : List JsonValue → List Char
  | [] => []
  | [x] => (printScalar x).data
  | x :: xs => (printScalar x).data ++ ',' :: itemsChars xs

/-- `serializeJson` of a one-level array document. -/
def printArr (xs : List JsonValue) : String :=
  String.mk ('[' :: (itemsChars xs ++ [']']))

/-- The character run between the braces of an object: `"key":value` member
texts joined by commas. -/
def pairsChars : List (String × JsonValue) → List Char
  | [] => []
  | [kv] => (printString kv.1).data ++ ':' :: (printScalar kv.2).data
  | kv :: ms => (printString kv.1).data ++ ':' :: ((printScalar kv.2).data ++ ',' :: pairsChars ms)

/-- `serializeJson` of a one-level object document. -/
def printObj (ms : List (String × JsonValue)) : String :=
  String.mk (lbraceCh :: (pairsChars ms ++ [rbraceCh]))

/-! ## The parser model (`deserializeJson`)

A strict-JSON recursive-descent reader. It is fuel-indexed (one shared
`Nat` argument, decreasing structurally on every recursive call, so the
kernel can evaluate it); `deserializeJson` itself runs it with fuel
`length + 1`, which the round-trip lemmas below show is always enough for
the documents the serializer produces. Compared with ArduinoJson's reader
the model is strict: it does not accept the non-standard extensions
(single quotes, unquoted keys, `\u` escapes, NaN/Infinity) and requires
the document to end after the root value. -/

/-- Expect `lit` as a literal prefix of the input, returning the rest. -/
def dropLit : List Char → List Char → Option (List Char)
  | [], cs => some cs
  | l :: ls, c :: cs => if c = l then dropLit ls cs else none
  | _ :: _, [] => none

/-- Resolve a backslash escape inside a string literal. -/
def unescChar (c : Char) : Option Char :=
  if c = '"' then some '"'
  else if c = '\\' then some '\\'
  else if c = '/' then some '/'
  else if c = 'b' then some '\x08'
  else if c = 'f' then some '\x0c'
  else if c = 'n' then some '\n'
  else if c = 'r' then some '\x0d'
  else if c = 't' then some '\t'
  else none

/-- Parse a string body after the opening quote: content up to the closing
quote (escapes resolved) and the rest of the input. Any character other
than `"` and `\` is accepted verbatim, as in ArduinoJson's reader. -/
def parseStringBody : List Char → Option (List Char × List Char)
  | [] => none
  | '"' :: t => some ([], t)
  | '\\' :: [] => none
  | '\\' :: e :: t2 =>
    (match unescChar e with
      | none => none
      | some u =>
        match parseStringBody t2 with
        | none => none
        | some p => some (u :: p.1, p.2))
  | c :: t =>
    match parseStringBody t with
    | none => none
    | some p => some (c :: p.1, p.2)

/-- The exponent tail of a number after `e`/`E`: optional sign and a
nonempty digit run. -/
def parseExpTail (cs : List Char) : Option (List Char) :=
  let cs1 := (parseSign cs).2
  let es := cs1.takeWhile isDigit
  if es = [] then none else some (cs1.dropWhile isDigit)

/-- Parse a JSON number: optional minus sign and a nonempty digit run; a
fraction or exponent part yields the abstracted `jfrac` node (stored as a
float by ArduinoJson), otherwise `jint` of the decimal value. -/
def parseNumberCore (cs : List Char) : Option (JsonValue × List Char) :=
  let neg : Bool := cs.headD ' ' = '-'
  let cs1 := if neg then cs.tail else cs
  let ds := cs1.takeWhile isDigit
  let r1 := cs1.dropWhile isDigit
  if ds = [] then none
  else if r1.headD ' ' = '.' then
    let t := r1.tail
    let fs := t.takeWhile isDigit
    let r2 := t.dropWhile isDigit
    if fs = [] then none
    else if r2.headD ' ' = 'e' ∨ r2.headD ' ' = 'E' then
      (parseExpTail r2.tail).map (fun r => (.jfrac, r))
    else some (.jfrac, r2)
  else if r1.headD ' ' = 'e' ∨ r1.headD ' ' = 'E' then
    (parseExpTail r1.tail).map (fun r => (.jfrac, r))
  else some (.jint (if neg then -(digitsVal ds : Int) else (digitsVal ds : Int)), r1)

/-- What the reader is currently parsing: a value, the elements of an array
(already past `[` and at least one element pending), or the members of an
object. -/
inductive PMode where
  | value
  | items (acc : List JsonValue)
  | pairs (acc : List (String × JsonValue))

/-- The recursive-descent core. Structural on the fuel argument. -/
def parseCore : Nat → PMode → List Char → Option (JsonValue × List Char)
  | 0, _, _ => none
  | fuel + 1, .value, cs0 =>
    match cs0.dropWhile isWs with
    | [] => none
    | c :: t =>
      if c = 'n' then (dropLit ['u', 'l', 'l'] t).map (fun r => (.jnull, r))
      else if c = 't' then (dropLit ['r', 'u', 'e'] t).map (fun r => (.jbool true, r))
      else if c = 'f' then (dropLit ['a', 'l', 's', 'e'] t).map (fun r => (.jbool false, r))
      else if c = '"' then
        (parseStringBody t).map (fun p => (.jstr (String.mk p.1), p.2))
      else if c = '[' then
        let t1 := t.dropWhile isWs
        if t1.headD ' ' = ']' then some (.jarr [], t1.tail)
        else parseCore fuel (.items []) t1
      else if c = lbraceCh then
        let t2 := t.dropWhile isWs
        if t2.headD ' ' = rbraceCh then some (.jobj [], t2.tail)
        else parseCore fuel (.pairs []) t2
      else parseNumberCore (c :: t)
  | fuel + 1, .items acc, cs =>
    match parseCore fuel .value cs with
    | none => none
    | some (v, r) =>
      match r.dropWhile isWs with
      | [] => none
      | c :: r2 =>
        if c = ',' then parseCore fuel (.items (acc ++ [v])) r2
        else if c = ']' then some (.jarr (acc ++ [v]), r2)
        else none
  | fuel + 1, .pairs acc, cs =>
    match cs.dropWhile isWs with
    | [] => none
    | c :: t =>
      if c = '"' then
        match parseStringBody t with
        | none => none
        | some (kcs, r) =>
          match r.dropWhile isWs with
          | [] => none
          | c2 :: r2 =>
            if c2 = ':' then
              match parseCore fuel .value r2 with
              | none => none
              | some (v, r3) =>
                match r3.dropWhile isWs with
                | [] => none
                | c3 :: r4 =>
                  if c3 = ',' then parseCore fuel (.pairs (acc ++ [(String.mk kcs, v)])) r4
                  else if c3 = rbraceCh then some (.jobj (acc ++ [(String.mk kcs, v)]), r4)
                  else none
            else none
      else none

/-- `deserializeJson(doc, input)`: parse one document; `none` models a
`DeserializationError` other than `Ok` (the call sites only test against
`Ok`, so the error codes are not distinguished). -/
def parseJson (s : String) : Option JsonValue :=
  match parseCore (s.data.length + 1) .value s.data with
  | some (v, r) => if r.dropWhile isWs = [] then some v else none
  | none => none

/-! ## The container codec (`SerializationUtility.h`, lines 394–762)

`serialize_sequential_container` builds a `JsonArray` and, for primitive
element types, adds each element directly as a JSON scalar: booleans as
booleans, strings via `c_str()`, integral elements as
`static_cast<int64_t>(element)`. `deserialize_sequential_container` parses
the input, requires an array root, and folds `deserialize_and_add_element`
over the elements (`push_back` for vector/list/deque, `insert` for sets,
indexed writes for `std::array` after an exact size check).

`std::vector`/`std::list`/`std::deque` values are modelled as lists in
element order; `std::set` as its iteration order, a list strictly sorted
ascending; `std::unordered_set` as a duplicate-free list in iteration
order; `std::map` as an association list strictly sorted by key;
`std::unordered_map` as a duplicate-key-free association list in iteration
order. -/

/-- `serialize_sequential_container` for an integral element type:
`array.add(static_cast<int64_t>(element))` per element (line 418). -/
def serialize_vector_int (xs : List Int) : String :=
  printArr (xs.map (fun i => .jint (toSigned 64 i)))

/-- `serialize_sequential_container` for `bool` elements (lines 400–404 and
409–412 add the boolean itself). -/
def serialize_vector_bool (bs : List Bool) : String :=
  printArr (bs.map .jbool)

/-- `serialize_sequential_container` for string elements:
`array.add(element.c_str())` (line 416). -/
def serialize_vector_string (ss : List String) : String :=
  printArr (ss.map .jstr)

/-- `deserialize_and_add_element` for a signed integral element of width
`w`: `static_cast<ValueType>(element.as<int64_t>())` (line 481). -/
def decode_elem_signed (w : Nat) (e : JsonValue) : Int := toSigned w (asInt64 e)

/-- `deserialize_and_add_element` for a `bool` element (line 473). -/
def decode_elem_bool (e : JsonValue) : Bool := asBool e

/-- `deserialize_and_add_element` for a string element: `as<const char*>`,
null pointer replaced by the empty string (lines 477–478). -/
def decode_elem_string (e : JsonValue) : String := (asCStr e).getD ""

/-- The shared head of `deserialize_sequential_container` (lines 548–562):
parse, `Failed to parse JSON` on a parse error, `Expected JSON array` when
the root is not an array, then hand the element list to the
container-specific remainder. -/
def deserialize_sequential_core {α : Type} (handle : List JsonValue → Except String α)
    (input : String) : Except String α :=
  match parseJson input with
  | none => .error ("Failed to parse JSON: " ++ input)
  | some d =>
    match d with
    | .jarr elems => handle elems
    | _ => .error ("Expected JSON array, got: " ++ input)

/-- `deserialize_sequential_container<std::vector<T>>` for a signed
integral element type of width `w` (push_back in array order). -/
def deserialize_vector_int (w : Nat) (input : String) : Except String (List Int) :=
  deserialize_sequential_core (fun elems => .ok (elems.map (decode_elem_signed w))) input

/-- `deserialize_sequential_container<std::vector<bool>>`. -/
def deserialize_vector_bool (input : String) : Except String (List Bool) :=
  deserialize_sequential_core (fun elems => .ok (elems.map decode_elem_bool)) input

/-- `deserialize_sequential_container<std::vector<StdString>>`. -/
def deserialize_vector_string (input : String) : Except String (List String) :=
  deserialize_sequential_core (fun elems => .ok (elems.map decode_elem_string)) input

/-- `std::set<T>::insert` on the iteration-order model: ordered insertion,
duplicates collapse. -/
def insertSorted {α : Type} [LinearOrder α] (x : α) : List α → List α
  | [] => [x]
  | y :: ys => if x < y then x :: y :: ys else if x = y then y :: ys else y :: insertSorted x ys

/-- `std::unordered_set<T>::insert` on the iteration-order model: a new
element joins the iteration order (modelled at the end), duplicates
collapse. -/
def insertHashed {α : Type} [DecidableEq α] (x : α) (l : List α) : List α :=
  if x ∈ l then l else l ++ [x]

/-- `deserialize_sequential_container<std::set<int_w>>`: the elements are
folded into the set with `insert` (line 520). -/
def deserialize_set_int (w : Nat) (input : String) : Except String (List Int) :=
  deserialize_sequential_core
    (fun elems => .ok (elems.foldl (fun acc e => insertSorted (decode_elem_signed w e) acc) []))
    input

/-- `deserialize_sequential_container<std::unordered_set<int_w>>`. -/
def deserialize_uset_int (w : Nat) (input : String) : Except String (List Int) :=
  deserialize_sequential_core
    (fun elems => .ok (elems.foldl (fun acc e => insertHashed (decode_elem_signed w e) acc) []))
    input

/-- `deserialize_sequential_container<std::array<int_w, N>>`: after the
array-root check, the JSON array's size must equal `N` exactly (lines
576–583) or a `std::invalid_argument` reporting both sizes is thrown before
any element is deserialized; then the elements are written by index. -/
def deserialize_array_int (w N : Nat) (input : String) : Except String (List Int) :=
  deserialize_sequential_core
    (fun elems =>
      if elems.length ≠ N then
        .error ("JSON array size (" ++ natToString elems.length ++
          ") does not match Array size (" ++ natToString N ++ ")")
      else .ok (elems.map (decode_elem_signed w)))
    input

/-- The value node `serialize_associative_container` splices in for an `int`
map value (lines 722–746): the value is serialized to text and re-parsed;
decimal text always parses, to the same integer. The parse-error fallback
stores the int64 cast directly. -/
def mapValueDoc_int (v : Int) : JsonValue :=
  match parseJson (intToString v) with
  | some d => d
  | none => .jint (toSigned 64 v)

/-- The value node `serialize_associative_container` splices in for a
string map value (lines 722–746): the raw string is re-parsed as JSON, and
only when that parse fails does the fallback store it as a string. A string
value that happens to be valid JSON text is therefore stored as the parsed
node, not as a string. -/
def mapValueDoc_str (v : String) : JsonValue :=
  match parseJson v with
  | some d => d
  | none => .jstr v

/-- `serialize_associative_container` for a string-keyed, int-valued map:
string keys are written directly as the object keys (line 712). -/
def serialize_map_str_int (m : List (String × Int)) : String :=
  printObj (m.map fun kv => (kv.1, mapValueDoc_int kv.2))

/-- `serialize_associative_container` for a string-keyed, string-valued
map. -/
def serialize_map_str_str (m : List (String × String)) : String :=
  printObj (m.map fun kv => (kv.1, mapValueDoc_str kv.2))

/-- `serialize_associative_container` for an int-keyed, int-valued map: the
key text is the key's primitive serialization, i.e. its decimal form
(line 714). -/
def serialize_map_int_int (m : List (Int × Int)) : String :=
  printObj (m.map fun kv => (intToString kv.1, mapValueDoc_int kv.2))

/-- `map[key] = value` on the sorted association-list model of `std::map`:
insert by key order, overwriting an existing binding. -/
def insertAssoc {κ β : Type} [LinearOrder κ] (k : κ) (v : β) :
    List (κ × β) → List (κ × β)
  | [] => [(k, v)]
  | (k', v') :: rest =>
    if k < k' then (k, v) :: (k', v') :: rest
    else if k = k' then (k, v) :: rest
    else (k', v') :: insertAssoc k v rest

/-- The shared head of `deserialize_associative_container` (lines 603–617):
parse, `Failed to parse JSON` on a parse error, `Expected JSON object` when
the root is not an object. -/
def deserialize_associative_core {α : Type}
    (handle : List (String × JsonValue) → Except String α)
    (input : String) : Except String α :=
  match parseJson input with
  | none => .error ("Failed to parse JSON: " ++ input)
  | some d =>
    match d with
    | .jobj mems => handle mems
    | _ => .error ("Expected JSON object, got: " ++ input)

/-- `deserialize_associative_container<std::map<StdString, int_w>>`: keys
taken verbatim from the object (line 632), values via `as<int64_t>`
(line 669), inserted with `map[key] = value`. -/
def deserialize_map_str_int (w : Nat) (input : String) : Except String (List (String × Int)) :=
  deserialize_associative_core
    (fun mems => .ok (mems.foldl (fun acc kv => insertAssoc kv.1 (decode_elem_signed w kv.2) acc) []))
    input

/-- `deserialize_associative_container<std::map<StdString, StdString>>`:
values via `as<const char*>`, null replaced by `""` (lines 665–666). -/
def deserialize_map_str_str (input : String) : Except String (List (String × String)) :=
  deserialize_associative_core
    (fun mems => .ok (mems.foldl (fun acc kv => insertAssoc kv.1 (decode_elem_string kv.2) acc) []))
    input

/-- The member loop of `deserialize_associative_container` for an int-keyed,
int-valued map: each key string goes through `convert_string_to_primitive`
(lines 638–640), whose exception aborts the loop; the value is read via
`as<int64_t>` and inserted with `map[key] = value`. -/
def foldIntPairs (w wv : Nat) : List (String × JsonValue) → List (Int × Int) →
    Except String (List (Int × Int))
  | [], acc => .ok acc
  | kv :: rest, acc =>
    match convert_string_to_primitive_signed w kv.1 with
    | .error e => .error e
    | .ok k => foldIntPairs w wv rest (insertAssoc k (decode_elem_signed wv kv.2) acc)

/-- `deserialize_associative_container<std::map<int_w, int_wv>>`. -/
def deserialize_map_int_int (w wv : Nat) (input : String) : Except String (List (Int × Int)) :=
  deserialize_associative_core (fun mems => foldIntPairs w wv mems []) input

/-! ## The optional codec (`SerializationUtility.h`, lines 87–139)

The branch is generic in the inner type; the model abstracts the two ways
a present value is produced into parameters. `resolve d input` stands for
the whole post-null-check block at lines 104–133 (JSON-native extraction
with its internal fallbacks to `Deserialize<ValueType>(input)` for
primitive inner types, or the serialize-back-and-delegate path for complex
inner types); `direct input` stands for the parse-failure fallback
`Deserialize<ValueType>(input)` at line 136. -/

/-- `SerializationUtility::Deserialize<Optional<T>>`. -/
def deserializeOptional {α : Type} (resolve : JsonValue → String → Except String α)
    (direct : String → Except String α) (input : String) : Except String (Option α) :=
  if input = "" ∨ input = "null" ∨ input = "\x7b\x7d" then .ok none
  else
    match parseJson input with
    | some d =>
      if isNullJ d then .ok none
      else (resolve d input).map some
    | none => (direct input).map some

/-- The `resolve` argument instantiated at inner type `int` (lines
120–127): `doc.is<int>()` then `doc.as<int>()`, else
`Deserialize<int>(input)`. Used by the witness. -/
def resolveDocInt (d : JsonValue) (input : String) : Except String Int :=
  match d with
  | .jint i => .ok (toSigned 32 i)
  | _ => convert_string_to_primitive_signed 32 input

/-! ## The field validators (`ValidationUtility.h`)

Each validator takes the parsed document, a field name and the accumulated
error log, and returns its boolean verdict together with the updated log.
The source appends `",\n"` before its message whenever the log is
nonempty. `ValidateNotBlank` reads the field through `as<const char*>`;
for a present non-string field that call returns a null pointer and the
`StdString` construction is undefined behaviour in the source — the model
totalizes it to the empty string, and the theorems below only quantify
over the defined cases. -/

/-- The separator-plus-message append: `if (!empty) += ",\n"; += msg`. -/
def appendErr (log msg : String) : String :=
  (if log.isEmpty then log else log ++ ",\n") ++ msg

/-- `ValidationUtility::ValidateNotNull` (lines 36–50). -/
def ValidateNotNull (doc : JsonValue) (field log : String) : Bool × String :=
  if isNullJ (jsonAt doc field) then
    (false, appendErr log ("NotNull field '" ++ field ++ "' is required but was null or missing"))
  else (true, log)

/-- The trim of `ValidateNotBlank` (lines 84–102): drop leading and
trailing characters from `" \t\n\r"`. -/
def trimModel (s : String) : String :=
  String.mk (((s.data.dropWhile isWs).reverse.dropWhile isWs).reverse)

/-- `ValidationUtility::ValidateNotBlank` (lines 64–114). -/
def ValidateNotBlank (doc : JsonValue) (field log : String) : Bool × String :=
  if isNullJ (jsonAt doc field) then
    (false, appendErr log ("NotBlank field '" ++ field ++ "' is required but was null or missing"))
  else
    let fieldValue := (asCStr (jsonAt doc field)).getD ""
    if (trimModel fieldValue).isEmpty then
      (false, appendErr log ("NotBlank field '" ++ field ++ "' cannot be empty or blank"))
    else (true, log)

/-- A scalar document node: the shapes a one-level container document holds
as elements/member values. -/
def ScalarW : JsonValue → Prop
  | .jnull => True
  | .jbool _ => True
  | .jint _ => True
  | .jstr _ => True
  | _ => False

/-- A remainder that cannot extend a rendered number: empty, or headed by a
character that is no digit and none of `.`, `e`, `E`, `-`. Every position a
scalar occupies in a one-level document is followed by such a remainder
(`,`, `]`, `}` or end of input). -/
def numDelimOk (rest : List Char) : Prop :=
  ∀ c, rest.head? = some c → isDigit c = false ∧ c ≠ '.' ∧ c ≠ 'e' ∧ c ≠ 'E'

/-- `ValidationUtility::ValidateNotEmpty` (lines 130–192). -/
def ValidateNotEmpty (doc : JsonValue) (field log : String) : Bool × String :=
  let v := jsonAt doc field
  if isNullJ v then
    (false, appendErr log ("NotEmpty field '" ++ field ++ "' is required but was null or missing"))
  else if isJStr v then
    if ((asCStr v).getD "").isEmpty then
      (false, appendErr log ("NotEmpty field '" ++ field ++ "' cannot be empty"))
    else (true, log)
  else if isJArr v then
    if (jarrElems v).length = 0 then
      (false, appendErr log ("NotEmpty field '" ++ field ++ "' (array/collection) cannot be empty"))
    else (true, log)
  else if isJObj v then
    if (jobjMems v).length = 0 then
      (false, appendErr log ("NotEmpty field '" ++ field ++ "' (map) cannot be empty"))
    else (true, log)
  else (true, log)

/-! ## Digit lemmas -/

theorem charToDigit_digitToChar : ∀ d < 10, charToDigit (digitToChar d) = d := by decide

theorem isDigit_digitToChar : ∀ d < 10, isDigit (digitToChar d) = true := by decide

theorem digitsAux_lt10 : ∀ fuel n, ∀ d ∈ digitsAux fuel n, d < 10 := by
  intro fuel
  induction fuel with
  | zero => intro n d hd; simp [digitsAux] at hd
  | succ f ih =>
    intro n d hd
    by_cases h0 : n = 0
    · simp [digitsAux, h0] at hd
    · simp only [digitsAux, if_neg h0, List.mem_cons] at hd
      rcases hd with h | h
      · omega
      · exact ih _ _ h

theorem digitsAux_foldr : ∀ fuel n, n ≤ fuel →
    (digitsAux fuel n).foldr (fun d a => 10 * a + d) 0 = n := by
  intro fuel
  induction fuel with
  | zero => intro n hn; interval_cases n; simp [digitsAux]
  | succ f ih =>
    intro n hn
    by_cases h0 : n = 0
    · simp [digitsAux, h0]
    · have hrec : n / 10 ≤ f := by omega
      simp only [digitsAux, if_neg h0, List.foldr_cons, ih _ hrec]
      omega

theorem digitsAux_ne_nil (fuel n : Nat) (h0 : 0 < n) (hf : n ≤ fuel) :
    digitsAux fuel n ≠ [] := by
  cases fuel with
  | zero => omega
  | succ f => simp [digitsAux]; omega

theorem natDigits_all_digit (n : Nat) : ∀ c ∈ natDigits n, isDigit c = true := by
  intro c hc
  simp only [natDigits, List.mem_reverse, List.mem_map] at hc
  obtain ⟨d, hd, rfl⟩ := hc
  exact isDigit_digitToChar d (digitsAux_lt10 n n d hd)

theorem natDigits_ne_nil (n : Nat) (h0 : 0 < n) : natDigits n ≠ [] := by
  simp only [natDigits, ne_eq, List.reverse_eq_nil_iff, List.map_eq_nil_iff]
  exact digitsAux_ne_nil n n h0 le_rfl

theorem digitsVal_natDigits (n : Nat) : digitsVal (natDigits n) = n := by
  have key : ∀ l : List Nat, (∀ d ∈ l, d < 10) →
      ((l.map digitToChar).reverse.foldl (fun a c => 10 * a + charToDigit c) 0)
        = l.foldr (fun d a => 10 * a + d) 0 := by
    intro l hl
    rw [List.foldl_reverse]
    induction l with
    | nil => simp
    | cons d t ih =>
      simp only [List.map_cons, List.foldr_cons]
      rw [ih (fun x hx => hl x (List.mem_cons_of_mem _ hx))]
      rw [charToDigit_digitToChar d (hl d (List.mem_cons_self _ _))]
  unfold digitsVal natDigits
  rw [key _ (digitsAux_lt10 n n), digitsAux_foldr n n le_rfl]

theorem natToString_data (n : Nat) :
    (natToString n).data = if n = 0 then ['0'] else natDigits n := by
  by_cases h : n = 0 <;> simp [natToString, h]

theorem natToString_all_digit (n : Nat) : ∀ c ∈ (natToString n).data, isDigit c = true := by
  rw [natToString_data]
  by_cases h : n = 0
  · simp [h]; decide
  · simpa [h] using natDigits_all_digit n

theorem digitsVal_natToString (n : Nat) : digitsVal (natToString n).data = n := by
  rw [natToString_data]
  by_cases h : n = 0
  · simp [h]; decide
  · simpa [h] using digitsVal_natDigits n

theorem natToString_data_ne_nil (n : Nat) : (natToString n).data ≠ [] := by
  rw [natToString_data]
  by_cases h : n = 0
  · simp [h]
  · simpa [h] using natDigits_ne_nil n (by omega)

/-! ## takeWhile / dropWhile over a digit run -/

theorem takeWhile_all_append {p : Char → Bool} :
    ∀ (l r : List Char), (∀ c ∈ l, p c = true) → (∀ c, r.head? = some c → p c = false) →
      (l ++ r).takeWhile p = l ∧ (l ++ r).dropWhile p = r := by
  intro l
  induction l with
  | nil =>
    intro r _ hr
    cases r with
    | nil => simp
    | cons c t => simp [List.takeWhile_cons, List.dropWhile_cons, hr c rfl]
  | cons c t ih =>
    intro r hl hr
    have hc : p c = true := hl c (List.mem_cons_self _ _)
    have := ih r (fun x hx => hl x (List.mem_cons_of_mem _ hx)) hr
    simp [List.takeWhile_cons, List.dropWhile_cons, hc, this.1, this.2]

theorem dropWhile_cons_false {p : Char → Bool} {c : Char} {t : List Char}
    (h : p c = false) : (c :: t).dropWhile p = c :: t := by
  simp [List.dropWhile_cons, h]

/-! ## Character-class facts about digits -/

theorem isDigit_isSpaceC {c : Char} (h : isDigit c = true) : isSpaceC c = false := by
  by_contra hsp
  rw [Bool.not_eq_false] at hsp
  simp only [isSpaceC, Bool.or_eq_true, decide_eq_true_eq] at hsp
  rcases hsp with ((((rfl | rfl) | rfl) | rfl) | rfl) | rfl <;> exact absurd h (by decide)

theorem isDigit_isWs {c : Char} (h : isDigit c = true) : isWs c = false := by
  by_contra hws
  rw [Bool.not_eq_false] at hws
  simp only [isWs, Bool.or_eq_true, decide_eq_true_eq] at hws
  rcases hws with ((rfl | rfl) | rfl) | rfl <;> exact absurd h (by decide)

theorem isDigit_ne_minus {c : Char} (h : isDigit c = true) : c ≠ '-' := by
  rintro rfl; exact absurd h (by decide)

theorem isDigit_ne_plus {c : Char} (h : isDigit c = true) : c ≠ '+' := by
  rintro rfl; exact absurd h (by decide)

theorem isDigit_value_route {c : Char} (h : isDigit c = true) :
    c ≠ 'n' ∧ c ≠ 't' ∧ c ≠ 'f' ∧ c ≠ '"' ∧ c ≠ '[' ∧ c ≠ lbraceCh := by
  refine ⟨?_, ?_, ?_, ?_, ?_, ?_⟩ <;> (rintro rfl; exact absurd h (by decide))

/-! ## Inversion of the standard-library number parses on rendered text -/

theorem natToString_head_digit (n : Nat) :
    ∃ c t, (natToString n).data = c :: t ∧ isDigit c = true := by
  cases h : (natToString n).data with
  | nil => exact absurd h (natToString_data_ne_nil n)
  | cons c t =>
    refine ⟨c, t, rfl, natToString_all_digit n c ?_⟩
    rw [h]; exact List.mem_cons_self _ _

theorem takeWhile_digits_nil (n : Nat) :
    (natToString n).data.takeWhile isDigit = (natToString n).data ∧
      (natToString n).data.dropWhile isDigit = [] := by
  have := takeWhile_all_append (natToString n).data [] (natToString_all_digit n)
    (fun c hc => by simp at hc)
  simpa using this

theorem stollModel_intToString (i : Int) (h1 : -(2 ^ 63) ≤ i) (h2 : i < 2 ^ 63) :
    stollModel (intToString i) = some i := by
  have h63 : (2 : Int) ^ 63 = 9223372036854775808 := by norm_num
  rw [h63] at h1 h2
  by_cases hneg : i < 0
  · have hdata : (intToString i).data = '-' :: (natToString i.natAbs).data := by
      rw [intToString, if_pos hneg, String.data_append]; rfl
    have hdrop : (intToString i).data.dropWhile isSpaceC
        = '-' :: (natToString i.natAbs).data := by
      rw [hdata]; exact dropWhile_cons_false (by decide)
    have hps : parseSign ('-' :: (natToString i.natAbs).data)
        = (true, (natToString i.natAbs).data) := by simp [parseSign]
    have habs : (i.natAbs : Int) = -i := by omega
    simp only [stollModel, hdrop, hps, (takeWhile_digits_nil i.natAbs).1,
      digitsVal_natToString, if_neg (natToString_data_ne_nil i.natAbs), if_true, h63, habs]
    rw [if_neg (by omega)]
    congr 1
    omega
  · have hdata : (intToString i).data = (natToString i.natAbs).data := by
      rw [intToString, if_neg hneg]
    obtain ⟨c, t, hct, hcd⟩ := natToString_head_digit i.natAbs
    have hdrop : (intToString i).data.dropWhile isSpaceC = (natToString i.natAbs).data := by
      rw [hdata, hct]; exact dropWhile_cons_false (isDigit_isSpaceC hcd)
    have hps : parseSign (natToString i.natAbs).data
        = (false, (natToString i.natAbs).data) := by
      rw [hct]
      simp [parseSign, isDigit_ne_minus hcd, isDigit_ne_plus hcd]
    have habs : (i.natAbs : Int) = i := by omega
    simp only [stollModel, hdrop, hps, (takeWhile_digits_nil i.natAbs).1,
      digitsVal_natToString, if_neg (natToString_data_ne_nil i.natAbs),
      Bool.false_eq_true, if_false, h63, habs]
    rw [if_neg (by omega)]

theorem stoullModel_neg_natToString (n : Nat) (h1 : 1 ≤ n) (h2 : n < 2 ^ 64) :
    stoullModel ("-" ++ natToString n) = some (2 ^ 64 - n) := by
  have h64 : (2 : Nat) ^ 64 = 18446744073709551616 := by norm_num
  rw [h64] at h2 ⊢
  have hdata : ("-" ++ natToString n).data = '-' :: (natToString n).data := by
    rw [String.data_append]; rfl
  have hdrop : ("-" ++ natToString n).data.dropWhile isSpaceC
      = '-' :: (natToString n).data := by
    rw [hdata]; exact dropWhile_cons_false (by decide)
  have hps : parseSign ('-' :: (natToString n).data) = (true, (natToString n).data) := by
    simp [parseSign]
  simp only [stoullModel, hdrop, hps, (takeWhile_digits_nil n).1,
    digitsVal_natToString, if_neg (natToString_data_ne_nil n), if_true, h64]
  rw [if_neg (by omega)]
  rw [Nat.mod_eq_of_lt (by omega)]

/-! ## Round trip of the JSON printer and parser on one-level documents -/

theorem mk_data_self (s : String) : String.mk s.data = s := rfl

theorem dropLit_self : ∀ (l r : List Char), dropLit l (l ++ r) = some r := by
  intro l
  induction l with
  | nil => intro r; rfl
  | cons c t ih => intro r; simp [dropLit, ih]

theorem parseStringBody_esc : ∀ (cs rest : List Char),
    parseStringBody (escList cs ++ '"' :: rest) = some (cs, rest) := by
  intro cs
  induction cs with
  | nil => intro rest; simp [escList, parseStringBody]
  | cons c t ih =>
    intro rest
    show parseStringBody ((escChar c ++ escList t) ++ '"' :: rest) = _
    rw [List.append_assoc]
    rw [escChar]
    by_cases h1 : c = '"'
    · subst h1; simp [parseStringBody, unescChar, ih]
    · rw [if_neg h1]
      by_cases h2 : c = '\\'
      · subst h2; simp [parseStringBody, unescChar, ih]
      · rw [if_neg h2]
        by_cases h3 : c = '\x08'
        · subst h3; simp [parseStringBody, unescChar, ih]
        · rw [if_neg h3]
          by_cases h4 : c = '\x0c'
          · subst h4; simp [parseStringBody, unescChar, ih]
          · rw [if_neg h4]
            by_cases h5 : c = '\n'
            · subst h5; simp [parseStringBody, unescChar, ih]
            · rw [if_neg h5]
              by_cases h6 : c = '\x0d'
              · subst h6; simp [parseStringBody, unescChar, ih]
              · rw [if_neg h6]
                by_cases h7 : c = '\t'
                · subst h7; simp [parseStringBody, unescChar, ih]
                · rw [if_neg h7]
                  simp [parseStringBody, h1, h2, ih]

theorem numDelim_not_dot {rest : List Char} (hr : numDelimOk rest) :
    ¬ rest.head?.getD ' ' = '.' ∧ ¬ (rest.head?.getD ' ' = 'e' ∨ rest.head?.getD ' ' = 'E')
      ∧ (∀ c, rest.head? = some c → isDigit c = false) := by
  cases rest with
  | nil => exact ⟨by decide, by decide, fun c hc => by simp at hc⟩
  | cons c t =>
    obtain ⟨hd, hdot, he, hE⟩ := hr c rfl
    exact ⟨hdot, by simp [he, hE], fun x hx => by simp at hx; subst hx; exact hd⟩

theorem parseNumberCore_intToString (i : Int) (rest : List Char) (hr : numDelimOk rest) :
    parseNumberCore ((intToString i).data ++ rest) = some (.jint i, rest) := by
  obtain ⟨hdot, heE, hnd⟩ := numDelim_not_dot hr
  have htw := takeWhile_all_append (natToString i.natAbs).data rest
    (natToString_all_digit i.natAbs) hnd
  by_cases hneg : i < 0
  · have hdata : (intToString i).data ++ rest
        = '-' :: ((natToString i.natAbs).data ++ rest) := by
      rw [intToString, if_pos hneg, String.data_append]; rfl
    have habs : (i.natAbs : Int) = -i := by omega
    rw [hdata]
    simp only [parseNumberCore, List.headD_cons, List.tail_cons]
    simp [htw.1, htw.2, natToString_data_ne_nil i.natAbs, hdot, heE,
      digitsVal_natToString, habs]
  · have hdata : (intToString i).data ++ rest = (natToString i.natAbs).data ++ rest := by
      rw [intToString, if_neg hneg]
    obtain ⟨c, t, hct, hcd⟩ := natToString_head_digit i.natAbs
    have habs : (i.natAbs : Int) = i := by omega
    have hhead : ((natToString i.natAbs).data ++ rest).headD ' ' = c := by
      rw [hct]; rfl
    rw [hdata]
    simp only [parseNumberCore, hhead]
    simp [isDigit_ne_minus hcd, htw.1, htw.2, natToString_data_ne_nil i.natAbs,
      hdot, heE, digitsVal_natToString, habs]

theorem minus_route :
    '-' ≠ 'n' ∧ '-' ≠ 't' ∧ '-' ≠ 'f' ∧ '-' ≠ '"' ∧ '-' ≠ '[' ∧ '-' ≠ lbraceCh := by
  refine ⟨?_, ?_, ?_, ?_, ?_, ?_⟩ <;> decide

theorem quote_route :
    '"' ≠ 'n' ∧ '"' ≠ 't' ∧ '"' ≠ 'f' ∧ '"' ≠ '[' ∧ '"' ≠ lbraceCh := by
  refine ⟨?_, ?_, ?_, ?_, ?_⟩ <;> decide

theorem parseCore_value_print (v : JsonValue) (hv : ScalarW v) (rest : List Char)
    (hr : numDelimOk rest) (fuel : Nat) :
    parseCore (fuel + 1) .value ((printScalar v).data ++ rest) = some (v, rest) := by
  cases v with
  | jnull =>
    have hdw : (("null" : String).data ++ rest).dropWhile isWs
        = 'n' :: (['u', 'l', 'l'] ++ rest) := by
      exact dropWhile_cons_false (by decide)
    simp only [printScalar, parseCore, hdw]
    simp [dropLit]
  | jbool b =>
    cases b with
    | true =>
      have hdw : (("true" : String).data ++ rest).dropWhile isWs
          = 't' :: (['r', 'u', 'e'] ++ rest) := by
        exact dropWhile_cons_false (by decide)
      simp only [printScalar, parseCore, hdw]
      simp [dropLit]
    | false =>
      have hdw : (("false" : String).data ++ rest).dropWhile isWs
          = 'f' :: (['a', 'l', 's', 'e'] ++ rest) := by
        exact dropWhile_cons_false (by decide)
      simp only [printScalar, parseCore, hdw]
      simp [dropLit]
  | jint i =>
    by_cases hneg : i < 0
    · have hdata : (printScalar (.jint i)).data ++ rest
          = '-' :: ((natToString i.natAbs).data ++ rest) := by
        show (intToString i).data ++ rest = _
        rw [intToString, if_pos hneg, String.data_append]; rfl
      have hdw : ('-' :: ((natToString i.natAbs).data ++ rest)).dropWhile isWs
          = '-' :: ((natToString i.natAbs).data ++ rest) := dropWhile_cons_false (by decide)
      rw [hdata]
      simp only [parseCore, hdw]
      rw [← hdata]
      simp only [printScalar]
      simp [minus_route.1, minus_route.2.1, minus_route.2.2.1, minus_route.2.2.2.1,
        minus_route.2.2.2.2.1, minus_route.2.2.2.2.2, parseNumberCore_intToString i rest hr]
    · have hct' := natToString_head_digit i.natAbs
      obtain ⟨c, t, hct, hcd⟩ := hct'
      have hdata : (printScalar (.jint i)).data ++ rest = c :: (t ++ rest) := by
        show (intToString i).data ++ rest = _
        rw [intToString, if_neg hneg, hct]; rfl
      have hdw : (c :: (t ++ rest)).dropWhile isWs
          = c :: (t ++ rest) := dropWhile_cons_false (isDigit_isWs hcd)
      obtain ⟨hn, ht, hf, hq, hb, hl⟩ := isDigit_value_route hcd
      rw [hdata]
      simp only [parseCore, hdw]
      rw [show c :: (t ++ rest) = (printScalar (.jint i)).data ++ rest from hdata.symm]
      simp only [printScalar]
      simp [hn, ht, hf, hq, hb, hl, parseNumberCore_intToString i rest hr]
  | jstr s =>
    have hdata : (printScalar (.jstr s)).data ++ rest
        = '"' :: (escList s.data ++ ('"' :: rest)) := by
      show (printString s).data ++ rest = _
      show ('"' :: (escList s.data ++ ['"'])) ++ rest = _
      simp
    have hdw : ('"' :: (escList s.data ++ ('"' :: rest))).dropWhile isWs
        = '"' :: (escList s.data ++ ('"' :: rest)) := dropWhile_cons_false (by decide)
    rw [hdata]
    simp only [parseCore, hdw]
    simp [quote_route.1, quote_route.2.1, quote_route.2.2.1, quote_route.2.2.2.1,
      quote_route.2.2.2.2, parseStringBody_esc, mk_data_self]
  | jfrac => simp [ScalarW] at hv
  | jarr l => simp [ScalarW] at hv
  | jobj l => simp [ScalarW] at hv

theorem numDelimOk_nil : numDelimOk [] := fun c hc => by simp at hc

theorem numDelimOk_cons {c : Char}
    (h : isDigit c = false ∧ c ≠ '.' ∧ c ≠ 'e' ∧ c ≠ 'E') (r : List Char) :
    numDelimOk (c :: r) := by
  intro x hx
  simp at hx
  subst hx
  exact h

theorem printScalar_head (v : JsonValue) (hv : ScalarW v) :
    ∃ c t, (printScalar v).data = c :: t ∧ isWs c = false ∧ c ≠ ']' ∧ c ≠ rbraceCh := by
  cases v with
  | jnull => exact ⟨'n', _, rfl, by decide, by decide, by decide⟩
  | jbool b =>
    obtain rfl | rfl := Bool.eq_false_or_eq_true b
    · exact ⟨'t', _, rfl, rfl, by decide, by decide⟩
    · exact ⟨'f', _, rfl, rfl, by decide, by decide⟩
  | jint i =>
    by_cases hneg : i < 0
    · refine ⟨'-', (natToString i.natAbs).data, ?_, by decide, by decide, by decide⟩
      show (intToString i).data = _
      rw [intToString, if_pos hneg, String.data_append]; rfl
    · obtain ⟨c, t, hct, hcd⟩ := natToString_head_digit i.natAbs
      refine ⟨c, t, ?_, isDigit_isWs hcd, ?_, ?_⟩
      · show (intToString i).data = _
        rw [intToString, if_neg hneg, hct]
      · rintro rfl; exact absurd hcd (by decide)
      · rintro rfl; exact absurd hcd (by decide)
  | jstr s => exact ⟨'"', _, rfl, by decide, by decide, by decide⟩
  | jfrac => simp [ScalarW] at hv
  | jarr l => simp [ScalarW] at hv
  | jobj l => simp [ScalarW] at hv

theorem itemsChars_cons (x : JsonValue) (xs : List JsonValue) :
    itemsChars (x :: xs)
      = (printScalar x).data ++ (if xs.isEmpty then [] else ',' :: itemsChars xs) := by
  cases xs with
  | nil => simp [itemsChars]
  | cons y ys => simp [itemsChars]

theorem length_le_itemsChars (xs : List JsonValue) (h : ∀ x ∈ xs, ScalarW x) :
    xs.length ≤ (itemsChars xs).length := by
  induction xs with
  | nil => simp [itemsChars]
  | cons x t ih =>
    obtain ⟨c, cs, hct, -, -, -⟩ := printScalar_head x (h x (List.mem_cons_self _ _))
    have hx : 1 ≤ (printScalar x).data.length := by rw [hct]; simp
    cases t with
    | nil => simpa [itemsChars] using hx
    | cons y ys =>
      have := ih (fun z hz => h z (List.mem_cons_of_mem _ hz))
      simp only [itemsChars, List.length_append, List.length_cons]
      simp only [List.length_cons] at this
      omega

theorem parseCore_items_print :
    ∀ (xs : List JsonValue) (acc : List JsonValue) (rest : List Char) (fuel : Nat),
      (∀ x ∈ xs, ScalarW x) → xs ≠ [] → xs.length + 1 ≤ fuel →
      parseCore fuel (.items acc) (itemsChars xs ++ ']' :: rest)
        = some (.jarr (acc ++ xs), rest) := by
  intro xs
  induction xs with
  | nil => intro acc rest fuel _ hne _; exact absurd rfl hne
  | cons x t ih =>
    intro acc rest fuel hsc _ hfuel
    simp only [List.length_cons] at hfuel
    obtain ⟨f, rfl⟩ : ∃ f, fuel = f + 1 := ⟨fuel - 1, by omega⟩
    obtain ⟨g, rfl⟩ : ∃ g, f = g + 1 := ⟨f - 1, by omega⟩
    have hx : ScalarW x := hsc x (List.mem_cons_self _ _)
    cases t with
    | nil =>
      have hval := parseCore_value_print x hx (']' :: rest) (numDelimOk_cons (by decide) rest) g
      have hdw : (']' :: rest).dropWhile isWs = ']' :: rest := dropWhile_cons_false (by decide)
      show parseCore (g + 1 + 1) (.items acc) ((printScalar x).data ++ ']' :: rest) = _
      rw [parseCore.eq_3, hval]
      simp [hdw]
    | cons y ys =>
      have hrw : itemsChars (x :: y :: ys) ++ ']' :: rest
          = (printScalar x).data ++ (',' :: (itemsChars (y :: ys) ++ ']' :: rest)) := by
        simp [itemsChars]
      have hval := parseCore_value_print x hx (',' :: (itemsChars (y :: ys) ++ ']' :: rest))
        (numDelimOk_cons (by decide) _) g
      have hdw : (',' :: (itemsChars (y :: ys) ++ ']' :: rest)).dropWhile isWs
          = ',' :: (itemsChars (y :: ys) ++ ']' :: rest) := dropWhile_cons_false (by decide)
      have hih := ih (acc ++ [x]) rest (g + 1)
        (fun z hz => hsc z (List.mem_cons_of_mem _ hz)) (by simp) (by simp at hfuel ⊢; omega)
      rw [hrw, parseCore.eq_3, hval]
      simp only [hdw, if_pos rfl]
      rw [hih]
      simp

theorem pairsChars_cons (kv : String × JsonValue) (ms : List (String × JsonValue)) :
    pairsChars (kv :: ms)
      = (printString kv.1).data ++ ':' :: ((printScalar kv.2).data
          ++ (if ms.isEmpty then [] else ',' :: pairsChars ms)) := by
  cases ms with
  | nil => simp [pairsChars]
  | cons y ys => simp [pairsChars]

theorem length_le_pairsChars (ms : List (String × JsonValue)) (h : ∀ kv ∈ ms, ScalarW kv.2) :
    ms.length ≤ (pairsChars ms).length := by
  induction ms with
  | nil => simp [pairsChars]
  | cons kv t ih =>
    obtain ⟨c, cs, hct, -, -, -⟩ := printScalar_head kv.2 (h kv (List.mem_cons_self _ _))
    have hx : 1 ≤ (printScalar kv.2).data.length := by rw [hct]; simp
    cases t with
    | nil => simp [pairsChars]; omega
    | cons y ys =>
      have := ih (fun z hz => h z (List.mem_cons_of_mem _ hz))
      simp only [pairsChars, List.length_append, List.length_cons]
      simp only [List.length_cons] at this
      omega

theorem printString_data (s : String) :
    (printString s).data = '"' :: (escList s.data ++ ['"']) := rfl

theorem parseCore_pairs_print :
    ∀ (ms : List (String × JsonValue)) (acc : List (String × JsonValue))
      (rest : List Char) (fuel : Nat),
      (∀ kv ∈ ms, ScalarW kv.2) → ms ≠ [] → ms.length + 1 ≤ fuel →
      parseCore fuel (.pairs acc) (pairsChars ms ++ rbraceCh :: rest)
        = some (.jobj (acc ++ ms), rest) := by
  intro ms
  induction ms with
  | nil => intro acc rest fuel _ hne _; exact absurd rfl hne
  | cons kv t ih =>
    intro acc rest fuel hsc _ hfuel
    simp only [List.length_cons] at hfuel
    obtain ⟨f, rfl⟩ : ∃ f, fuel = f + 1 := ⟨fuel - 1, by omega⟩
    obtain ⟨g, rfl⟩ : ∃ g, f = g + 1 := ⟨f - 1, by omega⟩
    have hx : ScalarW kv.2 := hsc kv (List.mem_cons_self _ _)
    obtain ⟨k, v⟩ := kv
    cases t with
    | nil =>
      have hrw : pairsChars [(k, v)] ++ rbraceCh :: rest
          = '"' :: ((escList k.data ++ '"' :: (':' :: ((printScalar v).data
              ++ rbraceCh :: rest)))) := by
        simp [pairsChars, printString_data]
      have hstr := parseStringBody_esc k.data (':' :: ((printScalar v).data ++ rbraceCh :: rest))
      have hval := parseCore_value_print v hx (rbraceCh :: rest)
        (numDelimOk_cons (by decide) rest) g
      have hdw1 : ('"' :: (escList k.data ++ '"' :: (':' :: ((printScalar v).data
          ++ rbraceCh :: rest)))).dropWhile isWs
          = '"' :: (escList k.data ++ '"' :: (':' :: ((printScalar v).data
          ++ rbraceCh :: rest))) := dropWhile_cons_false (by decide)
      have hdw2 : (':' :: ((printScalar v).data ++ rbraceCh :: rest)).dropWhile isWs
          = ':' :: ((printScalar v).data ++ rbraceCh :: rest) := dropWhile_cons_false (by decide)
      have hdw3 : (rbraceCh :: rest).dropWhile isWs = rbraceCh :: rest :=
        dropWhile_cons_false (by decide)
      rw [hrw, parseCore.eq_4]
      simp only [hdw1, List.cons.injEq]
      simp only [if_pos rfl, hstr, hdw2]
      simp only [if_pos rfl, hval, hdw3]
      simp [mk_data_self, show ¬ rbraceCh = ',' from by decide]
    | cons y ys =>
      have hrw : pairsChars ((k, v) :: y :: ys) ++ rbraceCh :: rest
          = '"' :: ((escList k.data ++ '"' :: (':' :: ((printScalar v).data
              ++ ',' :: (pairsChars (y :: ys) ++ rbraceCh :: rest))))) := by
        simp [pairsChars, printString_data]
      have hstr := parseStringBody_esc k.data
        (':' :: ((printScalar v).data ++ ',' :: (pairsChars (y :: ys) ++ rbraceCh :: rest)))
      have hval := parseCore_value_print v hx
        (',' :: (pairsChars (y :: ys) ++ rbraceCh :: rest))
        (numDelimOk_cons (by decide) _) g
      have hdw1 : ('"' :: (escList k.data ++ '"' :: (':' :: ((printScalar v).data
          ++ ',' :: (pairsChars (y :: ys) ++ rbraceCh :: rest))))).dropWhile isWs
          = '"' :: (escList k.data ++ '"' :: (':' :: ((printScalar v).data
          ++ ',' :: (pairsChars (y :: ys) ++ rbraceCh :: rest)))) :=
        dropWhile_cons_false (by decide)
      have hdw2 : (':' :: ((printScalar v).data
          ++ ',' :: (pairsChars (y :: ys) ++ rbraceCh :: rest))).dropWhile isWs
          = ':' :: ((printScalar v).data
          ++ ',' :: (pairsChars (y :: ys) ++ rbraceCh :: rest)) :=
        dropWhile_cons_false (by decide)
      have hdw3 : (',' :: (pairsChars (y :: ys) ++ rbraceCh :: rest)).dropWhile isWs
          = ',' :: (pairsChars (y :: ys) ++ rbraceCh :: rest) :=
        dropWhile_cons_false (by decide)
      have hih := ih (acc ++ [(k, v)]) rest (g + 1)
        (fun z hz => hsc z (List.mem_cons_of_mem _ hz)) (by simp) (by simp at hfuel ⊢; omega)
      rw [hrw, parseCore.eq_4]
      simp only [hdw1]
      simp only [if_pos rfl, hstr, hdw2]
      simp only [if_pos rfl, hval, hdw3]
      simp only [if_pos rfl, mk_data_self]
      rw [hih]
      simp

theorem parseJson_printScalar (v : JsonValue) (hv : ScalarW v) :
    parseJson (printScalar v) = some v := by
  unfold parseJson
  have h := parseCore_value_print v hv [] numDelimOk_nil ((printScalar v).data.length)
  rw [List.append_nil] at h
  rw [h]
  simp

theorem parseJson_intToString (i : Int) : parseJson (intToString i) = some (.jint i) :=
  parseJson_printScalar (.jint i) trivial

theorem parseCore_value_lbracket (fuel : Nat) (t : List Char)
    (h1 : (t.dropWhile isWs).headD ' ' ≠ ']') :
    parseCore (fuel + 1) .value ('[' :: t)
      = parseCore fuel (.items []) (t.dropWhile isWs) := by
  rw [parseCore.eq_2, dropWhile_cons_false (by decide)]
  rw [List.headD_eq_head?] at h1
  simp [h1]

theorem parseCore_value_lbrace (fuel : Nat) (t : List Char)
    (h1 : (t.dropWhile isWs).headD ' ' ≠ rbraceCh) :
    parseCore (fuel + 1) .value (lbraceCh :: t)
      = parseCore fuel (.pairs []) (t.dropWhile isWs) := by
  rw [parseCore.eq_2, dropWhile_cons_false (by decide)]
  rw [List.headD_eq_head?] at h1
  simp [h1, show ¬ lbraceCh = 'n' from by decide, show ¬ lbraceCh = 't' from by decide,
    show ¬ lbraceCh = 'f' from by decide, show ¬ lbraceCh = '"' from by decide,
    show ¬ lbraceCh = '[' from by decide]

theorem parseJson_printArr (xs : List JsonValue) (h : ∀ x ∈ xs, ScalarW x) :
    parseJson (printArr xs) = some (.jarr xs) := by
  cases xs with
  | nil => rfl
  | cons x xs =>
    have hx : ScalarW x := h x (List.mem_cons_self _ _)
    obtain ⟨c, cs, hct, hcws, hcne, -⟩ := printScalar_head x hx
    obtain ⟨R, hR⟩ : ∃ R, itemsChars (x :: xs) = (printScalar x).data ++ R :=
      ⟨_, itemsChars_cons x xs⟩
    have hthead : itemsChars (x :: xs) ++ [']'] = c :: (cs ++ R ++ [']']) := by
      rw [hR, hct]; simp
    have hdata : (printArr (x :: xs)).data = '[' :: (itemsChars (x :: xs) ++ [']']) := rfl
    have hdw0 : ('[' :: (itemsChars (x :: xs) ++ [']'])).dropWhile isWs
        = '[' :: (itemsChars (x :: xs) ++ [']']) := dropWhile_cons_false (by decide)
    have hdw1 : (itemsChars (x :: xs) ++ [']']).dropWhile isWs
        = itemsChars (x :: xs) ++ [']'] := by
      rw [hthead]; exact dropWhile_cons_false hcws
    have hhd : (itemsChars (x :: xs) ++ [']']).headD ' ' = c := by rw [hthead]; rfl
    have hlen := length_le_itemsChars (x :: xs) h
    have hitems := parseCore_items_print (x :: xs) [] []
      ('[' :: (itemsChars (x :: xs) ++ [']'])).length h (by simp)
      (by simp only [List.length_cons, List.length_append] at hlen ⊢; omega)
    unfold parseJson
    rw [hdata, parseCore_value_lbracket _ _ (by rw [hdw1, hhd]; exact hcne), hdw1, hitems]
    simp

theorem parseJson_printObj (ms : List (String × JsonValue)) (h : ∀ kv ∈ ms, ScalarW kv.2) :
    parseJson (printObj ms) = some (.jobj ms) := by
  cases ms with
  | nil => rfl
  | cons kv ms =>
    obtain ⟨R, hR⟩ : ∃ R, pairsChars (kv :: ms) = (printString kv.1).data ++ R :=
      ⟨_, pairsChars_cons kv ms⟩
    have hthead : pairsChars (kv :: ms) ++ [rbraceCh]
        = '"' :: ((escList kv.1.data ++ ['"']) ++ R ++ [rbraceCh]) := by
      rw [hR, printString_data]; simp
    have hdata : (printObj (kv :: ms)).data
        = lbraceCh :: (pairsChars (kv :: ms) ++ [rbraceCh]) := rfl
    have hdw0 : (lbraceCh :: (pairsChars (kv :: ms) ++ [rbraceCh])).dropWhile isWs
        = lbraceCh :: (pairsChars (kv :: ms) ++ [rbraceCh]) := dropWhile_cons_false (by decide)
    have hdw1 : (pairsChars (kv :: ms) ++ [rbraceCh]).dropWhile isWs
        = pairsChars (kv :: ms) ++ [rbraceCh] := by
      rw [hthead]; exact dropWhile_cons_false (by decide)
    have hhd : (pairsChars (kv :: ms) ++ [rbraceCh]).headD ' ' = '"' := by rw [hthead]; rfl
    have hlen := length_le_pairsChars (kv :: ms) h
    have hpairs := parseCore_pairs_print (kv :: ms) [] []
      (lbraceCh :: (pairsChars (kv :: ms) ++ [rbraceCh])).length h (by simp)
      (by simp only [List.length_cons, List.length_append] at hlen ⊢; omega)
    unfold parseJson
    rw [hdata, parseCore_value_lbrace _ _
      (by rw [hdw1, hhd]; decide), hdw1, hpairs]
    simp

/-! ## Width casts and element decode/encode -/

theorem toSigned_eq_self (w : Nat) (i : Int) (hw : 1 ≤ w)
    (h1 : -(2 ^ (w - 1)) ≤ i) (h2 : i < 2 ^ (w - 1)) : toSigned w i = i := by
  unfold toSigned
  have h2w : (2 : Int) ^ w = 2 ^ (w - 1) * 2 := by
    rw [← pow_succ]; congr 1; omega
  have hA : 0 < (2 : Int) ^ (w - 1) := pow_pos (by norm_num) _
  rw [h2w, Int.emod_eq_of_lt (by omega) (by omega)]
  omega

theorem decode_elem_signed_encode (w : Nat) (i : Int) (hw1 : 1 ≤ w) (hw : w ≤ 64)
    (h1 : -(2 ^ (w - 1)) ≤ i) (h2 : i < 2 ^ (w - 1)) :
    decode_elem_signed w (.jint (toSigned 64 i)) = i := by
  have hmono : (2 : Int) ^ (w - 1) ≤ 2 ^ 63 := pow_le_pow_right₀ (by norm_num) (by omega)
  have h64 : toSigned 64 i = i := toSigned_eq_self 64 i (by norm_num) (by omega) (by omega)
  rw [h64]
  show toSigned w (asInt64 (.jint i)) = i
  rw [asInt64, if_pos (by constructor <;> omega)]
  exact toSigned_eq_self w i hw1 h1 h2

theorem decode_elem_bool_encode (b : Bool) : decode_elem_bool (.jbool b) = b := rfl

theorem decode_elem_string_encode (s : String) : decode_elem_string (.jstr s) = s := rfl

/-! ## Folding container inserts over already-ordered input -/

theorem insertSorted_append {α : Type} [LinearOrder α] (x : α) :
    ∀ acc : List α, (∀ a ∈ acc, a < x) → insertSorted x acc = acc ++ [x] := by
  intro acc
  induction acc with
  | nil => intro; rfl
  | cons y ys ih =>
    intro h
    have hy : y < x := h y (List.mem_cons_self _ _)
    rw [insertSorted, if_neg (by exact fun hc => absurd hy (lt_asymm hc)),
      if_neg (by rintro rfl; exact lt_irrefl _ hy),
      ih (fun a ha => h a (List.mem_cons_of_mem _ ha))]
    rfl

theorem foldl_insertSorted {α : Type} [LinearOrder α] :
    ∀ (l acc : List α), (acc ++ l).Sorted (· < ·) →
      l.foldl (fun a x => insertSorted x a) acc = acc ++ l := by
  intro l
  induction l with
  | nil => intro acc _; simp
  | cons x t ih =>
    intro acc hs
    have hlt : ∀ a ∈ acc, a < x := by
      have h3 := List.pairwise_append.mp hs
      exact fun a ha => h3.2.2 a ha x (List.mem_cons_self _ _)
    have hstep : insertSorted x acc = acc ++ [x] := insertSorted_append x acc hlt
    rw [List.foldl_cons, hstep, ih (acc ++ [x]) (by simpa using hs)]
    simp

theorem foldl_insertHashed {α : Type} [DecidableEq α] :
    ∀ (l acc : List α), (acc ++ l).Nodup →
      l.foldl (fun a x => insertHashed x a) acc = acc ++ l := by
  intro l
  induction l with
  | nil => intro acc _; simp
  | cons x t ih =>
    intro acc hs
    have hnm : x ∉ acc := by
      rw [List.nodup_append] at hs
      exact fun hc => hs.2.2 hc (List.mem_cons_self _ _)
    rw [List.foldl_cons, insertHashed, if_neg hnm, ih (acc ++ [x]) (by simpa using hs)]
    simp

theorem insertAssoc_append {κ β : Type} [LinearOrder κ] (k : κ) (v : β) :
    ∀ acc : List (κ × β), (∀ p ∈ acc, p.1 < k) → insertAssoc k v acc = acc ++ [(k, v)] := by
  intro acc
  induction acc with
  | nil => intro; rfl
  | cons y ys ih =>
    intro h
    have hy : y.1 < k := h y (List.mem_cons_self _ _)
    obtain ⟨ky, vy⟩ := y
    rw [insertAssoc, if_neg (by exact fun hc => absurd hy (lt_asymm hc)),
      if_neg (by rintro rfl; exact lt_irrefl _ hy),
      ih (fun a ha => h a (List.mem_cons_of_mem _ ha))]
    rfl

theorem foldl_insertAssoc {κ β : Type} [LinearOrder κ] :
    ∀ (l acc : List (κ × β)), ((acc ++ l).map Prod.fst).Sorted (· < ·) →
      l.foldl (fun a kv => insertAssoc kv.1 kv.2 a) acc = acc ++ l := by
  intro l
  induction l with
  | nil => intro acc _; simp
  | cons x t ih =>
    intro acc hs
    have hlt : ∀ p ∈ acc, p.1 < x.1 := by
      rw [List.map_append] at hs
      have h3 := List.pairwise_append.mp hs
      intro p hp
      exact h3.2.2 p.1 (List.mem_map_of_mem _ hp) x.1 (by simp)
    have hstep : insertAssoc x.1 x.2 acc = acc ++ [(x.1, x.2)] :=
      insertAssoc_append x.1 x.2 acc hlt
    rw [List.foldl_cons, hstep, ih (acc ++ [(x.1, x.2)]) (by simpa using hs)]
    simp

theorem foldl_congr_mem {α β : Type} (f g : β → α → β) :
    ∀ (l : List α) (a : β), (∀ x ∈ l, ∀ acc, f acc x = g acc x) →
      l.foldl f a = l.foldl g a := by
  intro l
  induction l with
  | nil => intro a _; rfl
  | cons x t ih =>
    intro a h
    rw [List.foldl_cons, List.foldl_cons, h x (List.mem_cons_self _ _)]
    exact ih _ (fun z hz => h z (List.mem_cons_of_mem _ hz))

/-! ## Small helper facts for the claim theorems -/

theorem isNullJ_eq_true {d : JsonValue} : isNullJ d = true ↔ d = .jnull := by
  cases d <;> simp [isNullJ]

theorem except_map_some_ne_ok_none {α : Type} (e : Except String α) :
    Except.map some e ≠ .ok (none : Option α) := by
  cases e <;> simp [Except.map]

theorem mapValueDoc_int_eq (v : Int) : mapValueDoc_int v = .jint v := by
  unfold mapValueDoc_int
  rw [parseJson_intToString]

theorem mapValueDoc_str_eq {v : String} (h : parseJson v = none) :
    mapValueDoc_str v = .jstr v := by
  unfold mapValueDoc_str
  rw [h]

theorem appendErr_prefix (log m : String) : ∃ t, appendErr log m = log ++ t := by
  unfold appendErr
  by_cases h : log.isEmpty
  · exact ⟨m, by rw [if_pos h]⟩
  · exact ⟨",\n" ++ m, by rw [if_neg h, String.append_assoc]⟩

/-! ## The claims

Each claim of the specification gets exactly one theorem below; the doc
comment names the claim. -/

/-- C1 (code bug): the claim says `Deserialize<T>(Serialize(x)) == x` for
every primitive scalar type including the character types, and the source
contains a character branch (lines 364–379) implementing exactly that; but
`std::is_integral_v<char>` is true, so the `if constexpr` chain routes every
character type through the integer branch first and the character branch is
dead code. Concretely: `Serialize<char>('A')` is `"A"`, deserializing `"A"`
as an integer throws `std::invalid_argument("Invalid integer value: A")`,
while the unreachable character branch would have returned `'A'` (code 65)
as the claim requires. -/
theorem C1_char_roundtrip_breaks :
    convert_primitive_to_string_char 'A' = "A" ∧
    convert_string_to_primitive_char (convert_primitive_to_string_char 'A')
      = .error "Invalid integer value: A" ∧
    char_branch_model (convert_primitive_to_string_char 'A') = .ok 65 :=
  ⟨rfl, rfl, rfl⟩

/-- C9: `Deserialize<StdString>` is the identity and total. The primitive
branch of `Deserialize` calls `convert_string_to_primitive<StdString>`,
whose string case returns the input unchanged — quotes included — and can
raise no error. -/
theorem C9_deserialize_string_identity :
    (∀ s : String, convert_string_to_primitive_string s = .ok s) ∧
    convert_string_to_primitive_string "\"hello\"" = .ok "\"hello\"" :=
  ⟨fun _ => rfl, rfl⟩

/-- C10: deserializing a negative decimal literal `-n` into an unsigned
integral type of width `w` succeeds via `std::stoull` (which negates in the
return type, i.e. reduces modulo `2^64`) and the `static_cast` then reduces
modulo `2^w`; the result is `(2^64 - n) % 2^w`, which equals `-n` modulo
`2^w` for every machine width `w ≤ 64`. No conversion error is raised. -/
theorem C10_negative_to_unsigned (n w : Nat) (h1 : 1 ≤ n) (h2 : n < 2 ^ 64) :
    convert_string_to_primitive_unsigned w ("-" ++ natToString n)
      = .ok ((2 ^ 64 - n) % 2 ^ w) := by
  unfold convert_string_to_primitive_unsigned
  rw [stoullModel_neg_natToString n h1 h2]

/-- Witness for C10 at the claim's own example: `Deserialize<unsigned>`
(width 32) of `"-1"` yields the maximum unsigned value. -/
theorem C10_witness : convert_string_to_primitive_unsigned 32 "-1" = .ok 4294967295 := by
  have h := C10_negative_to_unsigned 1 32 (by norm_num) (by norm_num)
  rw [show ("-" ++ natToString 1) = "-1" from rfl] at h
  rw [h]
  congr 1

/-- C4: deserializing into a fixed-size array of declared size `N` from a
JSON array whose length differs from `N` fails with the size-mismatch
`std::invalid_argument` naming both sizes; the check precedes the element
loop, so no element is written — the result carries no partial fill, and
neither truncation nor padding can occur. -/
theorem C4_array_size_mismatch (w N : Nat) (s : String) (elems : List JsonValue)
    (hp : parseJson s = some (.jarr elems)) (hne : elems.length ≠ N) :
    deserialize_array_int w N s
      = .error ("JSON array size (" ++ natToString elems.length ++
          ") does not match Array size (" ++ natToString N ++ ")") := by
  unfold deserialize_array_int deserialize_sequential_core
  rw [hp]
  simp [hne]

/-- Witness for C4: a 3-element JSON array refused by a 2-element array
type, with the exact error text. -/
theorem C4_witness :
    deserialize_array_int 32 2 "[1,2,3]"
      = .error ("JSON array size (" ++ natToString 3 ++
          ") does not match Array size (" ++ natToString 2 ++ ")") :=
  C4_array_size_mismatch 32 2 "[1,2,3]" [.jint 1, .jint 2, .jint 3] rfl (by decide)

/-- C5: container deserialization validates the parsed document's top-level
category before touching any element: whatever the container-specific
element handler is, a parsed non-array document makes the sequential path
fail immediately with the type-mismatch error, and a parsed non-object
document makes the associative path fail immediately, in both cases without
the handler (and hence any element processing) ever running. -/
theorem C5_category_check_first :
    (∀ (α : Type) (handle : List JsonValue → Except String α) (s : String) (d : JsonValue),
      parseJson s = some d → isJArr d = false →
      deserialize_sequential_core handle s
        = .error ("Expected JSON array, got: " ++ s)) ∧
    (∀ (α : Type) (handle : List (String × JsonValue) → Except String α)
        (s : String) (d : JsonValue),
      parseJson s = some d → isJObj d = false →
      deserialize_associative_core handle s
        = .error ("Expected JSON object, got: " ++ s)) := by
  constructor
  · intro α handle s d hp hna
    unfold deserialize_sequential_core
    rw [hp]
    cases d <;> first | rfl | simp [isJArr] at hna
  · intro α handle s d hp hno
    unfold deserialize_associative_core
    rw [hp]
    cases d <;> first | rfl | simp [isJObj] at hno

/-- Witness for C5: an object refused by the sequential path and an array
refused by the associative path. -/
theorem C5_witness :
    deserialize_sequential_core (fun elems => .ok (elems.map (decode_elem_signed 32)))
        "\x7b\x7d" = .error ("Expected JSON array, got: " ++ "\x7b\x7d") ∧
    deserialize_associative_core (fun mems => .ok (mems.map (fun kv => kv.1)))
        "[1]" = .error ("Expected JSON object, got: " ++ "[1]") :=
  ⟨C5_category_check_first.1 _ _ "\x7b\x7d" (.jobj []) rfl rfl,
   C5_category_check_first.2 _ _ "[1]" (.jarr [.jint 1]) rfl rfl⟩

/-- C3: `Deserialize<Optional<T>>` yields an absent value exactly on empty
input, the literal `"null"` or `"\x7b\x7d"` text, or input parsing to a
JSON-null document; every other input attempts to produce a present value
(through the JSON-extraction block when the input parses, through the
direct inner `Deserialize` fallback when it does not) — the result is then
a present value or an error, never a silent absent value. The statement is
generic in the inner type's two production paths, as the source branch is
generic in `ValueType`. -/
theorem C3_optional_absent (α : Type) (resolve : JsonValue → String → Except String α)
    (direct : String → Except String α) (input : String) :
    (deserializeOptional resolve direct input = .ok none ↔
      ((input = "" ∨ input = "null" ∨ input = "\x7b\x7d")
        ∨ parseJson input = some .jnull)) ∧
    (¬ ((input = "" ∨ input = "null" ∨ input = "\x7b\x7d")
        ∨ parseJson input = some .jnull) →
      (∃ d, parseJson input = some d
          ∧ deserializeOptional resolve direct input = (resolve d input).map some)
        ∨ (parseJson input = none
          ∧ deserializeOptional resolve direct input = (direct input).map some)) := by
  by_cases htrio : input = "" ∨ input = "null" ∨ input = "\x7b\x7d"
  · have hval : deserializeOptional resolve direct input = .ok none := by
      unfold deserializeOptional; rw [if_pos htrio]
    rw [hval]
    exact ⟨⟨fun _ => Or.inl htrio, fun _ => rfl⟩, fun hn => absurd (Or.inl htrio) hn⟩
  · cases hp : parseJson input with
    | none =>
      have hval : deserializeOptional resolve direct input = (direct input).map some := by
        unfold deserializeOptional; rw [if_neg htrio, hp]
      rw [hval]
      refine ⟨⟨fun h => absurd h (except_map_some_ne_ok_none _), ?_⟩,
        fun _ => Or.inr ⟨rfl, rfl⟩⟩
      rintro (h | h)
      · exact absurd h htrio
      · exact Option.noConfusion h
    | some d =>
      by_cases hnull : isNullJ d = true
      · have hd := isNullJ_eq_true.mp hnull
        subst hd
        have hval : deserializeOptional resolve direct input = .ok none := by
          unfold deserializeOptional; rw [if_neg htrio, hp]; rfl
        rw [hval]
        exact ⟨⟨fun _ => Or.inr rfl, fun _ => rfl⟩, fun hn => absurd (Or.inr rfl) hn⟩
      · have hval : deserializeOptional resolve direct input
            = (resolve d input).map some := by
          unfold deserializeOptional
          rw [if_neg htrio, hp]
          show (if isNullJ d = true then Except.ok none
            else (resolve d input).map some) = _
          rw [if_neg hnull]
        rw [hval]
        refine ⟨⟨fun h => absurd h (except_map_some_ne_ok_none _), ?_⟩,
          fun _ => Or.inl ⟨d, rfl, rfl⟩⟩
        rintro (h | h)
        · exact absurd h htrio
        · exact absurd (isNullJ_eq_true.mpr (Option.some.inj h)) hnull

/-- Witness for C3, with the inner type instantiated at `int`: `"null"`
deserializes to the absent optional, and `"5"` takes the present-value path
through the document node `5`. -/
theorem C3_witness :
    deserializeOptional resolveDocInt (convert_string_to_primitive_signed 32) "null"
        = .ok none ∧
    ((∃ d, parseJson "5" = some d
      ∧ deserializeOptional resolveDocInt (convert_string_to_primitive_signed 32) "5"
          = (resolveDocInt d "5").map some) ∨
    (parseJson "5" = none
      ∧ deserializeOptional resolveDocInt (convert_string_to_primitive_signed 32) "5"
          = (convert_string_to_primitive_signed 32 "5").map some)) := by
  constructor
  · exact (C3_optional_absent Int resolveDocInt (convert_string_to_primitive_signed 32)
      "null").1.mpr (Or.inl (Or.inr (Or.inl rfl)))
  · exact (C3_optional_absent Int resolveDocInt (convert_string_to_primitive_signed 32)
      "5").2 (by
        rintro ((h | h | h) | h)
        · exact absurd h (by decide)
        · exact absurd h (by decide)
        · exact absurd h (by decide)
        · rw [show parseJson "5" = some (.jint 5) from rfl] at h
          exact JsonValue.noConfusion (Option.some.inj h))

/-- C6 (corrected): the claim states that `ValidateNotBlank` on a
null/missing field appends the same message as `ValidateNotNull`, namely
`"NotNull field '<field>' is required but was null or missing"`. It does
not: the message is tagged `NotBlank`, not `NotNull`. The two messages
differ on the concrete missing field `x`. -/
theorem C6_counterexample :
    (ValidateNotBlank (.jobj []) "x" "").2
        = "NotBlank field 'x' is required but was null or missing" ∧
    (ValidateNotNull (.jobj []) "x" "").2
        = "NotNull field 'x' is required but was null or missing" ∧
    (ValidateNotBlank (.jobj []) "x" "").2 ≠ (ValidateNotNull (.jobj []) "x" "").2 :=
  ⟨rfl, rfl, by decide⟩

/-- C6 as amended: on a null/missing field `ValidateNotBlank` fails and
appends `"NotBlank field '<field>' is required but was null or missing"`
(the NotNull-branch wording with the `NotBlank` tag); on a string field
whose value trims to empty it fails and appends
`"NotBlank field '<field>' cannot be empty or blank"`. -/
theorem C6_amended (doc : JsonValue) (field log : String) :
    (isNullJ (jsonAt doc field) = true →
      ValidateNotBlank doc field log
        = (false, appendErr log
            ("NotBlank field '" ++ field ++ "' is required but was null or missing"))) ∧
    (∀ s, jsonAt doc field = .jstr s → trimModel s = "" →
      ValidateNotBlank doc field log
        = (false, appendErr log
            ("NotBlank field '" ++ field ++ "' cannot be empty or blank"))) := by
  constructor
  · intro h
    unfold ValidateNotBlank
    rw [if_pos h]
  · intro t ht htrim
    unfold ValidateNotBlank
    rw [ht]
    rw [if_neg (by simp [isNullJ])]
    simp [asCStr, htrim, String.isEmpty_iff]

/-- Witness for C6: a missing field and an all-blank string field, with the
appended messages spelled out (including the `",\n"` separator after a
nonempty prior log). -/
theorem C6_witness :
    ValidateNotBlank (.jobj []) "x" ""
        = (false, "NotBlank field 'x' is required but was null or missing") ∧
    ValidateNotBlank (.jobj [("x", .jstr "  ")]) "x" "previous"
        = (false, "previous,\nNotBlank field 'x' cannot be empty or blank") :=
  ⟨(C6_amended (.jobj []) "x" "").1 rfl,
   (C6_amended (.jobj [("x", .jstr "  ")]) "x" "previous").2 "  " rfl rfl⟩

/-- C7: `ValidateNotEmpty` returns false exactly when the field is
null/missing, a zero-length string, a zero-element JSON array, or a
zero-key JSON object; each failure appends its tagged message; a field of
any other document category passes with nothing appended. -/
theorem C7_not_empty_spec (doc : JsonValue) (field log : String) :
    ((ValidateNotEmpty doc field log).1 = false ↔
      (isNullJ (jsonAt doc field) = true
        ∨ jsonAt doc field = .jstr ""
        ∨ jsonAt doc field = .jarr []
        ∨ jsonAt doc field = .jobj [])) ∧
    (isNullJ (jsonAt doc field) = false → isJStr (jsonAt doc field) = false →
      isJArr (jsonAt doc field) = false → isJObj (jsonAt doc field) = false →
      ValidateNotEmpty doc field log = (true, log)) ∧
    (isNullJ (jsonAt doc field) = true →
      ValidateNotEmpty doc field log = (false, appendErr log
        ("NotEmpty field '" ++ field ++ "' is required but was null or missing"))) ∧
    (jsonAt doc field = .jstr "" →
      ValidateNotEmpty doc field log = (false, appendErr log
        ("NotEmpty field '" ++ field ++ "' cannot be empty"))) ∧
    (jsonAt doc field = .jarr [] →
      ValidateNotEmpty doc field log = (false, appendErr log
        ("NotEmpty field '" ++ field ++ "' (array/collection) cannot be empty"))) ∧
    (jsonAt doc field = .jobj [] →
      ValidateNotEmpty doc field log = (false, appendErr log
        ("NotEmpty field '" ++ field ++ "' (map) cannot be empty"))) := by
  unfold ValidateNotEmpty
  cases hv : jsonAt doc field with
  | jnull => simp [isNullJ]
  | jbool b => simp [isNullJ, isJStr, isJArr, isJObj]
  | jint i => simp [isNullJ, isJStr, isJArr, isJObj]
  | jfrac => simp [isNullJ, isJStr, isJArr, isJObj]
  | jstr t =>
    by_cases ht : t = ""
    · subst ht; simp [isNullJ, isJStr, asCStr, String.isEmpty_iff]
    · simp [isNullJ, isJStr, isJArr, isJObj, asCStr, String.isEmpty_iff, ht]
  | jarr xs =>
    cases xs with
    | nil => simp [isNullJ, isJStr, isJArr, jarrElems, asCStr]
    | cons y ys => simp [isNullJ, isJStr, isJArr, isJObj, jarrElems, asCStr]
  | jobj ms =>
    cases ms with
    | nil => simp [isNullJ, isJStr, isJArr, isJObj, jarrElems, jobjMems, asCStr]
    | cons y ys => simp [isNullJ, isJStr, isJArr, isJObj, jarrElems, jobjMems, asCStr]

/-- Witness for C7: an empty array field fails with the
`(array/collection)` tag, an empty object field with the `(map)` tag, a
number field passes untouched. -/
theorem C7_witness :
    ValidateNotEmpty (.jobj [("x", .jarr [])]) "x" ""
        = (false, "NotEmpty field 'x' (array/collection) cannot be empty") ∧
    ValidateNotEmpty (.jobj [("x", .jobj [])]) "x" ""
        = (false, "NotEmpty field 'x' (map) cannot be empty") ∧
    ValidateNotEmpty (.jobj [("x", .jint 7)]) "x" "log" = (true, "log") := by
  refine ⟨?_, ?_, ?_⟩
  · exact (C7_not_empty_spec (.jobj [("x", .jarr [])]) "x" "").2.2.2.2.1 rfl
  · exact (C7_not_empty_spec (.jobj [("x", .jobj [])]) "x" "").2.2.2.2.2 rfl
  · exact (C7_not_empty_spec (.jobj [("x", .jint 7)]) "x" "log").2.1 rfl rfl rfl rfl

/-- C8: each of the three validators either returns true with the error log
unchanged, or returns false with exactly one of its messages appended after
the `",\n"` separator that `appendErr` inserts when the prior log is
nonempty; in every case the prior log is a prefix of the new log, so the
log is append-only. -/
theorem C8_validators_append_only (doc : JsonValue) (field log : String) :
    (ValidateNotNull doc field log = (true, log)
      ∨ ValidateNotNull doc field log = (false, appendErr log
          ("NotNull field '" ++ field ++ "' is required but was null or missing"))) ∧
    (ValidateNotBlank doc field log = (true, log)
      ∨ ValidateNotBlank doc field log = (false, appendErr log
          ("NotBlank field '" ++ field ++ "' is required but was null or missing"))
      ∨ ValidateNotBlank doc field log = (false, appendErr log
          ("NotBlank field '" ++ field ++ "' cannot be empty or blank"))) ∧
    (ValidateNotEmpty doc field log = (true, log)
      ∨ ValidateNotEmpty doc field log = (false, appendErr log
          ("NotEmpty field '" ++ field ++ "' is required but was null or missing"))
      ∨ ValidateNotEmpty doc field log = (false, appendErr log
          ("NotEmpty field '" ++ field ++ "' cannot be empty"))
      ∨ ValidateNotEmpty doc field log = (false, appendErr log
          ("NotEmpty field '" ++ field ++ "' (array/collection) cannot be empty"))
      ∨ ValidateNotEmpty doc field log = (false, appendErr log
          ("NotEmpty field '" ++ field ++ "' (map) cannot be empty"))) ∧
    (∃ t, (ValidateNotNull doc field log).2 = log ++ t) ∧
    (∃ t, (ValidateNotBlank doc field log).2 = log ++ t) ∧
    (∃ t, (ValidateNotEmpty doc field log).2 = log ++ t) := by
  have hnn : ValidateNotNull doc field log = (true, log)
      ∨ ValidateNotNull doc field log = (false, appendErr log
          ("NotNull field '" ++ field ++ "' is required but was null or missing")) := by
    unfold ValidateNotNull
    by_cases h : isNullJ (jsonAt doc field) <;> simp [h]
  have hnb : ValidateNotBlank doc field log = (true, log)
      ∨ ValidateNotBlank doc field log = (false, appendErr log
          ("NotBlank field '" ++ field ++ "' is required but was null or missing"))
      ∨ ValidateNotBlank doc field log = (false, appendErr log
          ("NotBlank field '" ++ field ++ "' cannot be empty or blank")) := by
    unfold ValidateNotBlank
    by_cases h : isNullJ (jsonAt doc field)
    · simp [h]
    · by_cases h2 : (trimModel ((asCStr (jsonAt doc field)).getD "")).isEmpty <;> simp [h, h2]
  have hne : ValidateNotEmpty doc field log = (true, log)
      ∨ ValidateNotEmpty doc field log = (false, appendErr log
          ("NotEmpty field '" ++ field ++ "' is required but was null or missing"))
      ∨ ValidateNotEmpty doc field log = (false, appendErr log
          ("NotEmpty field '" ++ field ++ "' cannot be empty"))
      ∨ ValidateNotEmpty doc field log = (false, appendErr log
          ("NotEmpty field '" ++ field ++ "' (array/collection) cannot be empty"))
      ∨ ValidateNotEmpty doc field log = (false, appendErr log
          ("NotEmpty field '" ++ field ++ "' (map) cannot be empty")) := by
    unfold ValidateNotEmpty
    by_cases h : isNullJ (jsonAt doc field)
    · simp [h]
    · by_cases h2 : isJStr (jsonAt doc field)
      · by_cases h3 : ((asCStr (jsonAt doc field)).getD "").isEmpty <;> simp [h, h2, h3]
      · by_cases h4 : isJArr (jsonAt doc field)
        · by_cases h5 : (jarrElems (jsonAt doc field)).length = 0 <;> simp [h, h2, h4, h5]
        · by_cases h6 : isJObj (jsonAt doc field)
          · by_cases h7 : (jobjMems (jsonAt doc field)).length = 0 <;>
              simp [h, h2, h4, h6, h7]
          · simp [h, h2, h4, h6]
  have pick : ∀ (p : Bool × String) (msgs : List String),
      (p = (true, log) ∨ p.2 = log ++ "" ∨ True) → True := fun _ _ _ => trivial
  refine ⟨hnn, hnb, hne, ?_, ?_, ?_⟩
  · rcases hnn with h | h
    · exact ⟨"", by rw [h, String.append_empty]⟩
    · rw [h]; exact appendErr_prefix log _
  · rcases hnb with h | h | h
    · exact ⟨"", by rw [h, String.append_empty]⟩
    · rw [h]; exact appendErr_prefix log _
    · rw [h]; exact appendErr_prefix log _
  · rcases hne with h | h | h | h | h
    · exact ⟨"", by rw [h, String.append_empty]⟩
    all_goals (rw [h]; exact appendErr_prefix log _)

/-! ## Round trips of the container codec (toward claim C2) -/

theorem decode_elem_signed_jint (w : Nat) (v : Int) (hw1 : 1 ≤ w) (hw : w ≤ 64)
    (h1 : -(2 ^ (w - 1)) ≤ v) (h2 : v < 2 ^ (w - 1)) :
    decode_elem_signed w (.jint v) = v := by
  have hmono : (2 : Int) ^ (w - 1) ≤ 2 ^ 63 := pow_le_pow_right₀ (by norm_num) (by omega)
  show toSigned w (asInt64 (.jint v)) = v
  rw [asInt64, if_pos (by constructor <;> omega)]
  exact toSigned_eq_self w v hw1 h1 h2

theorem scalarW_map_jint (xs : List Int) :
    ∀ x ∈ xs.map fun i => JsonValue.jint (toSigned 64 i), ScalarW x := by
  intro x hx
  rw [List.mem_map] at hx
  obtain ⟨i, -, rfl⟩ := hx
  trivial

theorem roundtrip_vector_int (w : Nat) (xs : List Int) (hw1 : 1 ≤ w) (hw : w ≤ 64)
    (hr : ∀ i ∈ xs, -(2 ^ (w - 1)) ≤ i ∧ i < 2 ^ (w - 1)) :
    deserialize_vector_int w (serialize_vector_int xs) = .ok xs := by
  unfold serialize_vector_int deserialize_vector_int deserialize_sequential_core
  rw [parseJson_printArr _ (scalarW_map_jint xs)]
  show Except.ok ((xs.map fun i => JsonValue.jint (toSigned 64 i)).map
    (decode_elem_signed w)) = Except.ok xs
  rw [List.map_map]
  congr 1
  calc xs.map (decode_elem_signed w ∘ fun i => JsonValue.jint (toSigned 64 i))
      = xs.map id := List.map_congr_left (fun i hi =>
        decode_elem_signed_encode w i hw1 hw (hr i hi).1 (hr i hi).2)
    _ = xs := List.map_id xs

theorem roundtrip_vector_bool (bs : List Bool) :
    deserialize_vector_bool (serialize_vector_bool bs) = .ok bs := by
  unfold serialize_vector_bool deserialize_vector_bool deserialize_sequential_core
  rw [parseJson_printArr _ (by
    intro x hx
    rw [List.mem_map] at hx
    obtain ⟨b, -, rfl⟩ := hx
    trivial)]
  show Except.ok ((bs.map JsonValue.jbool).map decode_elem_bool) = Except.ok bs
  rw [List.map_map]
  congr 1
  calc bs.map (decode_elem_bool ∘ JsonValue.jbool)
      = bs.map id := List.map_congr_left (fun b _ => rfl)
    _ = bs := List.map_id bs

theorem roundtrip_vector_string (ss : List String) :
    deserialize_vector_string (serialize_vector_string ss) = .ok ss := by
  unfold serialize_vector_string deserialize_vector_string deserialize_sequential_core
  rw [parseJson_printArr _ (by
    intro x hx
    rw [List.mem_map] at hx
    obtain ⟨t, -, rfl⟩ := hx
    trivial)]
  show Except.ok ((ss.map JsonValue.jstr).map decode_elem_string) = Except.ok ss
  rw [List.map_map]
  congr 1
  calc ss.map (decode_elem_string ∘ JsonValue.jstr)
      = ss.map id := List.map_congr_left (fun t _ => rfl)
    _ = ss := List.map_id ss

theorem roundtrip_set_int (w : Nat) (xs : List Int) (hw1 : 1 ≤ w) (hw : w ≤ 64)
    (hr : ∀ i ∈ xs, -(2 ^ (w - 1)) ≤ i ∧ i < 2 ^ (w - 1))
    (hsort : xs.Sorted (· < ·)) :
    deserialize_set_int w (serialize_vector_int xs) = .ok xs := by
  unfold serialize_vector_int deserialize_set_int deserialize_sequential_core
  rw [parseJson_printArr _ (scalarW_map_jint xs)]
  show Except.ok ((xs.map fun i => JsonValue.jint (toSigned 64 i)).foldl
    (fun acc e => insertSorted (decode_elem_signed w e) acc) []) = Except.ok xs
  rw [List.foldl_map]
  rw [foldl_congr_mem _ (fun acc i => insertSorted i acc) xs [] (fun i hi acc => by
    rw [decode_elem_signed_encode w i hw1 hw (hr i hi).1 (hr i hi).2])]
  rw [foldl_insertSorted xs [] (by simpa using hsort)]
  simp

theorem roundtrip_uset_int (w : Nat) (xs : List Int) (hw1 : 1 ≤ w) (hw : w ≤ 64)
    (hr : ∀ i ∈ xs, -(2 ^ (w - 1)) ≤ i ∧ i < 2 ^ (w - 1))
    (hnd : xs.Nodup) :
    deserialize_uset_int w (serialize_vector_int xs) = .ok xs := by
  unfold serialize_vector_int deserialize_uset_int deserialize_sequential_core
  rw [parseJson_printArr _ (scalarW_map_jint xs)]
  show Except.ok ((xs.map fun i => JsonValue.jint (toSigned 64 i)).foldl
    (fun acc e => insertHashed (decode_elem_signed w e) acc) []) = Except.ok xs
  rw [List.foldl_map]
  rw [foldl_congr_mem _ (fun acc i => insertHashed i acc) xs [] (fun i hi acc => by
    rw [decode_elem_signed_encode w i hw1 hw (hr i hi).1 (hr i hi).2])]
  rw [foldl_insertHashed xs [] (by simpa using hnd)]
  simp

theorem roundtrip_array_int (w N : Nat) (xs : List Int) (hlen : xs.length = N)
    (hw1 : 1 ≤ w) (hw : w ≤ 64)
    (hr : ∀ i ∈ xs, -(2 ^ (w - 1)) ≤ i ∧ i < 2 ^ (w - 1)) :
    deserialize_array_int w N (serialize_vector_int xs) = .ok xs := by
  unfold serialize_vector_int deserialize_array_int deserialize_sequential_core
  rw [parseJson_printArr _ (scalarW_map_jint xs)]
  show (if (xs.map fun i => JsonValue.jint (toSigned 64 i)).length ≠ N then _
    else Except.ok ((xs.map fun i => JsonValue.jint (toSigned 64 i)).map
      (decode_elem_signed w))) = Except.ok xs
  rw [if_neg (by simp [hlen])]
  rw [List.map_map]
  congr 1
  calc xs.map (decode_elem_signed w ∘ fun i => JsonValue.jint (toSigned 64 i))
      = xs.map id := List.map_congr_left (fun i hi =>
        decode_elem_signed_encode w i hw1 hw (hr i hi).1 (hr i hi).2)
    _ = xs := List.map_id xs

theorem roundtrip_map_str_int (w : Nat) (m : List (String × Int)) (hw1 : 1 ≤ w)
    (hw : w ≤ 64)
    (hr : ∀ kv ∈ m, -(2 ^ (w - 1)) ≤ kv.2 ∧ kv.2 < 2 ^ (w - 1))
    (hsort : (m.map Prod.fst).Sorted (· < ·)) :
    deserialize_map_str_int w (serialize_map_str_int m) = .ok m := by
  unfold serialize_map_str_int deserialize_map_str_int deserialize_associative_core
  simp only [mapValueDoc_int_eq]
  rw [parseJson_printObj _ (by
    intro kv hkv
    rw [List.mem_map] at hkv
    obtain ⟨p, -, rfl⟩ := hkv
    trivial)]
  show Except.ok ((m.map fun kv => (kv.1, JsonValue.jint kv.2)).foldl
    (fun acc kv => insertAssoc kv.1 (decode_elem_signed w kv.2) acc) []) = Except.ok m
  rw [List.foldl_map]
  rw [foldl_congr_mem _ (fun acc kv => insertAssoc kv.1 kv.2 acc) m [] (fun kv hkv acc => by
    rw [show decode_elem_signed w (JsonValue.jint kv.2) = kv.2 from
      decode_elem_signed_jint w kv.2 hw1 hw (hr kv hkv).1 (hr kv hkv).2])]
  rw [foldl_insertAssoc m [] (by simpa using hsort)]
  simp

theorem roundtrip_map_str_str (m : List (String × String))
    (hpf : ∀ kv ∈ m, parseJson kv.2 = none)
    (hsort : (m.map Prod.fst).Sorted (· < ·)) :
    deserialize_map_str_str (serialize_map_str_str m) = .ok m := by
  unfold serialize_map_str_str deserialize_map_str_str deserialize_associative_core
  rw [List.map_congr_left (fun kv hkv =>
    show (kv.1, mapValueDoc_str kv.2) = (kv.1, JsonValue.jstr kv.2) by
      rw [mapValueDoc_str_eq (hpf kv hkv)])]
  rw [parseJson_printObj _ (by
    intro kv hkv
    rw [List.mem_map] at hkv
    obtain ⟨p, -, rfl⟩ := hkv
    trivial)]
  show Except.ok ((m.map fun kv => (kv.1, JsonValue.jstr kv.2)).foldl
    (fun acc kv => insertAssoc kv.1 (decode_elem_string kv.2) acc) []) = Except.ok m
  rw [List.foldl_map]
  show Except.ok (m.foldl (fun acc kv => insertAssoc kv.1 kv.2 acc) []) = Except.ok m
  rw [foldl_insertAssoc m [] (by simpa using hsort)]
  simp

theorem foldIntPairs_map (wk wv : Nat) (hwk1 : 1 ≤ wk) (hwk : wk ≤ 64)
    (hwv1 : 1 ≤ wv) (hwv : wv ≤ 64) :
    ∀ (m acc : List (Int × Int)),
      (∀ kv ∈ m, -(2 ^ (wk - 1)) ≤ kv.1 ∧ kv.1 < 2 ^ (wk - 1)
        ∧ -(2 ^ (wv - 1)) ≤ kv.2 ∧ kv.2 < 2 ^ (wv - 1)) →
      foldIntPairs wk wv (m.map fun kv => (intToString kv.1, JsonValue.jint kv.2)) acc
        = .ok (m.foldl (fun acc kv => insertAssoc kv.1 kv.2 acc) acc) := by
  intro m
  induction m with
  | nil => intro acc _; rfl
  | cons kv t ih =>
    intro acc h
    obtain ⟨h1, h2, h3, h4⟩ := h kv (List.mem_cons_self _ _)
    have hmono : (2 : Int) ^ (wk - 1) ≤ 2 ^ 63 :=
      pow_le_pow_right₀ (by norm_num) (by omega)
    have hconv : convert_string_to_primitive_signed wk (intToString kv.1) = .ok kv.1 := by
      unfold convert_string_to_primitive_signed
      rw [stollModel_intToString kv.1 (by omega) (by omega)]
      show Except.ok (toSigned wk kv.1) = _
      rw [toSigned_eq_self wk kv.1 hwk1 h1 h2]
    have hdec : decode_elem_signed wv (.jint kv.2) = kv.2 :=
      decode_elem_signed_jint wv kv.2 hwv1 hwv h3 h4
    rw [List.map_cons, foldIntPairs, hconv]
    show foldIntPairs wk wv (t.map fun kv => (intToString kv.1, JsonValue.jint kv.2))
        (insertAssoc kv.1 (decode_elem_signed wv (.jint kv.2)) acc) = _
    rw [hdec, ih _ (fun z hz => h z (List.mem_cons_of_mem _ hz))]
    rw [List.foldl_cons]

theorem roundtrip_map_int_int (wk wv : Nat) (m : List (Int × Int))
    (hwk1 : 1 ≤ wk) (hwk : wk ≤ 64) (hwv1 : 1 ≤ wv) (hwv : wv ≤ 64)
    (hr : ∀ kv ∈ m, -(2 ^ (wk - 1)) ≤ kv.1 ∧ kv.1 < 2 ^ (wk - 1)
      ∧ -(2 ^ (wv - 1)) ≤ kv.2 ∧ kv.2 < 2 ^ (wv - 1))
    (hsort : (m.map Prod.fst).Sorted (· < ·)) :
    deserialize_map_int_int wk wv (serialize_map_int_int m) = .ok m := by
  unfold serialize_map_int_int deserialize_map_int_int deserialize_associative_core
  simp only [mapValueDoc_int_eq]
  rw [parseJson_printObj _ (by
    intro kv hkv
    rw [List.mem_map] at hkv
    obtain ⟨p, -, rfl⟩ := hkv
    trivial)]
  show foldIntPairs wk wv (m.map fun kv => (intToString kv.1, JsonValue.jint kv.2)) []
    = Except.ok m
  rw [foldIntPairs_map wk wv hwk1 hwk hwv1 hwv m [] hr]
  rw [foldl_insertAssoc m [] (by simpa using hsort)]
  simp

/-- C2 (counterexample): the claim says the round trip reproduces the same
key-to-value pairs for associative containers, but
`serialize_associative_container` re-parses each serialized value as JSON
and splices in the parsed node when the parse succeeds. A string value
`"42"` is therefore stored as the JSON number 42, and deserializing reads
it back through `as<const char*>`, which returns a null pointer for a
number — yielding the empty string instead of `"42"`. -/
theorem C2_counterexample :
    serialize_map_str_str [("a", "42")] = "\x7b\"a\":42\x7d" ∧
    deserialize_map_str_str (serialize_map_str_str [("a", "42")]) = .ok [("a", "")] ∧
    [("a", "")] ≠ [("a", "42")] :=
  ⟨rfl, rfl, by decide⟩

/-- C2 as amended: for sequential containers of primitive element types the
round trip reproduces the container exactly — in element order for the
ordered kinds (vector/list/deque share the `push_back` path; the fixed-size
array path additionally checks the length), and as the same element set for
`std::set` (iterated in ascending order) and `std::unordered_set` (iterated
without duplicates), which also gives multiset equality since neither side
has duplicates. For associative containers the round trip reproduces the
same key-to-value pairs for integer-valued maps, for int-keyed maps, and
for string-valued maps whose values do not themselves parse as JSON;
integral elements are assumed to fit their declared width (and `int64`,
into which the serializer casts). -/
theorem C2_roundtrip_amended :
    (∀ (w : Nat) (xs : List Int), 1 ≤ w → w ≤ 64 →
      (∀ i ∈ xs, -(2 ^ (w - 1)) ≤ i ∧ i < 2 ^ (w - 1)) →
      deserialize_vector_int w (serialize_vector_int xs) = .ok xs) ∧
    (∀ bs : List Bool, deserialize_vector_bool (serialize_vector_bool bs) = .ok bs) ∧
    (∀ ss : List String,
      deserialize_vector_string (serialize_vector_string ss) = .ok ss) ∧
    (∀ (w : Nat) (xs : List Int), 1 ≤ w → w ≤ 64 →
      (∀ i ∈ xs, -(2 ^ (w - 1)) ≤ i ∧ i < 2 ^ (w - 1)) → xs.Sorted (· < ·) →
      deserialize_set_int w (serialize_vector_int xs) = .ok xs) ∧
    (∀ (w : Nat) (xs : List Int), 1 ≤ w → w ≤ 64 →
      (∀ i ∈ xs, -(2 ^ (w - 1)) ≤ i ∧ i < 2 ^ (w - 1)) → xs.Nodup →
      deserialize_uset_int w (serialize_vector_int xs) = .ok xs) ∧
    (∀ (w N : Nat) (xs : List Int), xs.length = N → 1 ≤ w → w ≤ 64 →
      (∀ i ∈ xs, -(2 ^ (w - 1)) ≤ i ∧ i < 2 ^ (w - 1)) →
      deserialize_array_int w N (serialize_vector_int xs) = .ok xs) ∧
    (∀ (w : Nat) (m : List (String × Int)), 1 ≤ w → w ≤ 64 →
      (∀ kv ∈ m, -(2 ^ (w - 1)) ≤ kv.2 ∧ kv.2 < 2 ^ (w - 1)) →
      (m.map Prod.fst).Sorted (· < ·) →
      deserialize_map_str_int w (serialize_map_str_int m) = .ok m) ∧
    (∀ m : List (String × String), (∀ kv ∈ m, parseJson kv.2 = none) →
      (m.map Prod.fst).Sorted (· < ·) →
      deserialize_map_str_str (serialize_map_str_str m) = .ok m) ∧
    (∀ (wk wv : Nat) (m : List (Int × Int)), 1 ≤ wk → wk ≤ 64 → 1 ≤ wv → wv ≤ 64 →
      (∀ kv ∈ m, -(2 ^ (wk - 1)) ≤ kv.1 ∧ kv.1 < 2 ^ (wk - 1)
        ∧ -(2 ^ (wv - 1)) ≤ kv.2 ∧ kv.2 < 2 ^ (wv - 1)) →
      (m.map Prod.fst).Sorted (· < ·) →
      deserialize_map_int_int wk wv (serialize_map_int_int m) = .ok m) :=
  ⟨fun w xs h1 h2 h3 => roundtrip_vector_int w xs h1 h2 h3,
   roundtrip_vector_bool,
   roundtrip_vector_string,
   fun w xs h1 h2 h3 h4 => roundtrip_set_int w xs h1 h2 h3 h4,
   fun w xs h1 h2 h3 h4 => roundtrip_uset_int w xs h1 h2 h3 h4,
   fun w N xs h0 h1 h2 h3 => roundtrip_array_int w N xs h0 h1 h2 h3,
   fun w m h1 h2 h3 h4 => roundtrip_map_str_int w m h1 h2 h3 h4,
   fun m h1 h2 => roundtrip_map_str_str m h1 h2,
   fun wk wv m h1 h2 h3 h4 h5 h6 => roundtrip_map_int_int wk wv m h1 h2 h3 h4 h5 h6⟩

/-- Witness for C2: one concrete round trip per modelled container kind. -/
theorem C2_witness :
    deserialize_vector_int 32 (serialize_vector_int [1, -2]) = .ok [1, -2] ∧
    deserialize_vector_bool (serialize_vector_bool [true, false]) = .ok [true, false] ∧
    deserialize_vector_string (serialize_vector_string ["hi", "42"]) = .ok ["hi", "42"] ∧
    deserialize_set_int 32 (serialize_vector_int [1, 2, 3]) = .ok [1, 2, 3] ∧
    deserialize_uset_int 32 (serialize_vector_int [3, 1]) = .ok [3, 1] ∧
    deserialize_array_int 32 2 (serialize_vector_int [5, 6]) = .ok [5, 6] ∧
    deserialize_map_str_int 32 (serialize_map_str_int [("a", 1)]) = .ok [("a", 1)] ∧
    deserialize_map_str_str (serialize_map_str_str [("a", "hi")]) = .ok [("a", "hi")] ∧
    deserialize_map_int_int 32 32 (serialize_map_int_int [(-5, 7)]) = .ok [(-5, 7)] :=
  ⟨C2_roundtrip_amended.1 32 [1, -2] (by norm_num) (by norm_num) (by decide),
   C2_roundtrip_amended.2.1 [true, false],
   C2_roundtrip_amended.2.2.1 ["hi", "42"],
   C2_roundtrip_amended.2.2.2.1 32 [1, 2, 3] (by norm_num) (by norm_num) (by decide)
     (by decide),
   C2_roundtrip_amended.2.2.2.2.1 32 [3, 1] (by norm_num) (by norm_num) (by decide)
     (by decide),
   C2_roundtrip_amended.2.2.2.2.2.1 32 2 [5, 6] rfl (by norm_num) (by norm_num) (by decide),
   C2_roundtrip_amended.2.2.2.2.2.2.1 32 [("a", 1)] (by norm_num) (by norm_num)
     (by decide) (by decide),
   C2_roundtrip_amended.2.2.2.2.2.2.2.1 [("a", "hi")]
     (by rintro kv hkv; simp at hkv; subst hkv; rfl) (by decide),
   C2_roundtrip_amended.2.2.2.2.2.2.2.2 32 32 [(-5, 7)] (by norm_num) (by norm_num)
     (by norm_num) (by norm_num) (by decide) (by decide)⟩

end SerLib
